import Mathlib

/-!
# Verification of the omnivault-onepassword provider

A shallow embedding of the Go package `onepassword` (path parsing,
identifier-resolution caching, record conversion, error normalization and
the CRUD orchestration of `Provider`), together with theorems settling the
specification claims about it.

Go strings are modelled as Lean `String` (a structure wrapping `List Char`);
the handful of `strings` library calls used by the source (`Split`, `Join`,
`Contains`, `HasPrefix`, `ToLower`, `SplitN`, `Trim`) are embedded as
explicit recursive functions on the character list so that they are fully
transparent to proofs.  Go `map[string]string` values are modelled as
insertion-ordered association lists with overwrite-in-place insertion; Go's
unspecified map iteration order is thereby determinized to insertion order
(the one place this matters — the fallback primary-value scan in
`itemToSecret` — is noted at its theorem).
-/

namespace OnePassword

instance {ε α : Type} [DecidableEq ε] [DecidableEq α] : DecidableEq (Except ε α) := fun x y =>
  match x, y with
  | .ok a, .ok b => if h : a = b then .isTrue (by rw [h]) else .isFalse (by simp [h])
  | .error a, .error b => if h : a = b then .isTrue (by rw [h]) else .isFalse (by simp [h])
  | .ok _, .error _ => .isFalse (by simp)
  | .error _, .ok _ => .isFalse (by simp)

/-! ## Embedded `strings` helpers -/

/-- `strings.Split(s, sep)` for a one-character separator, on char lists.
`splitChar c [] = [[]]`, and every occurrence of `c` starts a new chunk. -/
def splitChar (c : Char) : List Char → List (List Char)
  | [] => [[]]
  | h :: t =>
    if h = c then [] :: splitChar c t
    else
      match splitChar c t with
      | [] => [[h]]
      | s :: ss => (h :: s) :: ss

/-- `strings.Split` specialized to a one-character separator. -/
def goSplit (s : String) (c : Char) : List String :=
  (splitChar c s.data).map String.mk

/-- `strings.Join(parts, sep)`. -/
def goJoin (sep : String) : List String → String
  | [] => ""
  | [a] => a
  | a :: b :: rest => a ++ sep ++ goJoin sep (b :: rest)

/-- `strings.HasPrefix(s, pre)`. -/
def goStartsWith (s pre : String) : Bool :=
  pre.data.isPrefixOf s.data

/-- Substring test on char lists (the core of `strings.Contains`). -/
def containsSub : List Char → List Char → Bool
  | [], sub => sub.isEmpty
  | h :: t, sub => sub.isPrefixOf (h :: t) || containsSub t sub

/-- `strings.Contains(s, sub)`. -/
def goContains (s sub : String) : Bool :=
  containsSub s.data sub.data

/-- `strings.ToLower` (ASCII case folding, which is all the source relies on). -/
def goToLower (s : String) : String :=
  String.mk (s.data.map Char.toLower)

/-! ## Path grammar (`paths.go`) -/

/-- `ErrInvalidPath`'s message text. -/
def errInvalidPathMsg : String := "invalid path format"

/-- `ParsedPath`: a parsed 1Password secret path.  The Go field `Section` is
named `sect` here because `section` is a Lean keyword. -/
structure ParsedPath where
  vault : String
  item : String
  sect : String
  field : String
deriving DecidableEq, Repr

/-- The non-empty components of a path, in canonical order (the `parts` slice
built by `ParsedPath.String`). -/
def ParsedPath.parts (p : ParsedPath) : List String :=
  [p.vault, p.item, p.sect, p.field].filter (fun s => s ≠ "")

/-- `ParsedPath.String()`: the path in canonical `/`-joined format. -/
def ParsedPath.render (p : ParsedPath) : String :=
  goJoin "/" p.parts

/-- `ParsedPath.SecretReference()`: the path as an `op://` reference URI. -/
def ParsedPath.secretReference (p : ParsedPath) : String :=
  if p.field ≠ "" then
    if p.sect ≠ "" then
      "op://" ++ p.vault ++ "/" ++ p.item ++ "/" ++ p.sect ++ "/" ++ p.field
    else
      "op://" ++ p.vault ++ "/" ++ p.item ++ "/" ++ p.field
  else
    "op://" ++ p.vault ++ "/" ++ p.item

/-- Split a raw path on `/` and drop the empty components (the
`strings.Split` + filter loop shared by `ParsePath` and
`parseSecretReference`). -/
def pathSegments (s : String) : List String :=
  (goSplit s '/').filter (fun p => p ≠ "")

/-- `parseSecretReference`: parse `op://vault/item[/section]/field`,
stripping the scheme and any `?query` suffix. -/
def parseSecretReference (ref : String) : Except String ParsedPath :=
  -- strings.TrimPrefix(ref, "op://"); the caller guarantees the prefix.
  let body := if goStartsWith ref "op://" then String.mk (ref.data.drop 5) else ref
  -- strings.Split(ref, "?")[0]
  let body := ((goSplit body '?').headD "")
  match pathSegments body with
  | [v, i] => .ok ⟨v, i, "", ""⟩
  | [v, i, f] => .ok ⟨v, i, "", f⟩
  | [v, i, s, f] => .ok ⟨v, i, s, f⟩
  | _ => .error (errInvalidPathMsg ++ ": invalid secret reference format")

/-- `ParsePath(path, defaultVault)`. -/
def ParsePath (path : String) (defaultVault : String) : Except String ParsedPath :=
  if path = "" then .error errInvalidPathMsg
  else if goStartsWith path "op://" then parseSecretReference path
  else
    match pathSegments path with
    | [] => .error errInvalidPathMsg
    | [a] =>
      if defaultVault = "" then
        .error (errInvalidPathMsg ++ ": single component path requires default vault")
      else .ok ⟨defaultVault, a, "", ""⟩
    | [a, b] =>
      if defaultVault ≠ "" then .ok ⟨defaultVault, a, "", b⟩
      else .ok ⟨a, b, "", ""⟩
    | [a, b, c] => .ok ⟨a, b, "", c⟩
    | [a, b, c, d] => .ok ⟨a, b, c, d⟩
    | _ => .error (errInvalidPathMsg ++ ": too many path components")

/-! ## Basic string and splitting lemmas -/

theorem mk_data (s : String) : String.mk s.data = s := rfl

theorem str_ext {a b : String} (h : a.data = b.data) : a = b := by
  cases a; cases b; exact congrArg String.mk h

theorem str_append_assoc (a b c : String) : a ++ b ++ c = a ++ (b ++ c) := by
  apply str_ext
  simp [String.data_append, List.append_assoc]

theorem data_ne_nil {s : String} (h : s ≠ "") : s.data ≠ [] := by
  intro hd
  exact h (str_ext hd)

theorem splitChar_no_sep (c : Char) (l : List Char) (h : c ∉ l) :
    splitChar c l = [l] := by
  induction l with
  | nil => rfl
  | cons a t ih =>
    rw [splitChar]
    have ha : ¬a = c := by
      rintro rfl
      exact h (List.mem_cons_self _ _)
    rw [if_neg ha, ih (fun hm => h (List.mem_cons_of_mem _ hm))]

theorem splitChar_append (c : Char) (a b : List Char) (h : c ∉ a) :
    splitChar c (a ++ c :: b) = a :: splitChar c b := by
  induction a with
  | nil => simp [splitChar]
  | cons x t ih =>
    rw [List.cons_append, splitChar]
    have hx : ¬x = c := by
      rintro rfl
      exact h (List.mem_cons_self _ _)
    rw [if_neg hx, ih (fun hm => h (List.mem_cons_of_mem _ hm))]

theorem pathSegments_three (C I F : String) (hC : C ≠ "") (hI : I ≠ "") (hF : F ≠ "")
    (hCs : '/' ∉ C.data) (hIs : '/' ∉ I.data) (hFs : '/' ∉ F.data) :
    pathSegments (C ++ "/" ++ I ++ "/" ++ F) = [C, I, F] := by
  have hdata : (C ++ "/" ++ I ++ "/" ++ F).data
      = C.data ++ '/' :: (I.data ++ '/' :: F.data) := by
    simp [String.data_append]
  rw [pathSegments, goSplit, hdata, splitChar_append _ _ _ hCs,
    splitChar_append _ _ _ hIs, splitChar_no_sep _ _ hFs]
  simp [mk_data, List.filter, hC, hI, hF]

theorem op_scheme_not_prefix (l i f : List Char) (hl : '/' ∉ l) (hln : l ≠ [])
    (hi : '/' ∉ i) (hin : i ≠ []) :
    (['o', 'p', ':', '/', '/'].isPrefixOf (l ++ '/' :: (i ++ '/' :: f))) = false := by
  match l, hln with
  | [a], _ =>
    have h2 : List.isPrefixOf ['p', ':', '/', '/'] ('/' :: (i ++ '/' :: f)) = false := rfl
    simp [List.isPrefixOf, h2]
  | [a, b], _ =>
    have h2 : List.isPrefixOf [':', '/', '/'] ('/' :: (i ++ '/' :: f)) = false := rfl
    simp [List.isPrefixOf, h2]
  | [a, b, c], _ =>
    match i, hin with
    | x :: xs, _ =>
      have hx : ('/' == x) = false := by
        have : x ≠ '/' := by
          rintro rfl
          exact hi (List.mem_cons_self _ _)
        simp [this.symm]
      simp [List.isPrefixOf, hx]
  | a :: b :: c :: d :: t, _ =>
    have hd : ('/' == d) = false := by
      have : d ≠ '/' := by
        rintro rfl
        exact hl (by simp)
      simp [this.symm]
    simp [List.isPrefixOf, hd]

theorem goStartsWith_three_op_false (C I F : String)
    (hC : C ≠ "") (hI : I ≠ "")
    (hCs : '/' ∉ C.data) (hIs : '/' ∉ I.data) :
    goStartsWith (C ++ "/" ++ I ++ "/" ++ F) "op://" = false := by
  have hdata : (C ++ "/" ++ I ++ "/" ++ F).data
      = C.data ++ '/' :: (I.data ++ '/' :: F.data) := by
    simp [String.data_append]
  rw [goStartsWith, hdata]
  exact op_scheme_not_prefix _ _ _ hCs (data_ne_nil hC) hIs (data_ne_nil hI)

/-! ## Claim C1 -/

/-- C1: for every plain (non-URI) path splitting into exactly two non-empty
slash-separated segments `X/Y`, parsing with a configured default collection
`d ≠ ""` yields `{collection := d, item := X, field := Y}`, and parsing with
no default yields `{collection := X, item := Y, field := ""}`; the
interpretation depends only on whether a default is configured. -/
theorem parsePath_two_segments (path d X Y : String)
    (hne : path ≠ "") (hop : goStartsWith path "op://" = false)
    (hseg : pathSegments path = [X, Y]) :
    ParsePath path d =
      .ok (if d ≠ "" then ⟨d, X, "", Y⟩ else ⟨X, Y, "", ""⟩) := by
  rw [ParsePath, if_neg hne, hop]
  simp only [Bool.false_eq_true, if_false, hseg]
  split <;> rfl

/-- Witness for C1 at `"a/b"` with and without a configured default. -/
theorem parsePath_two_segments_witness :
    ParsePath "a/b" "Private" = .ok ⟨"Private", "a", "", "b"⟩ ∧
    ParsePath "a/b" "" = .ok ⟨"a", "b", "", ""⟩ := by
  refine ⟨?_, ?_⟩
  · have h := parsePath_two_segments "a/b" "Private" "a" "b"
      (by decide) (by decide) (by decide)
    simpa using h
  · have h := parsePath_two_segments "a/b" "" "a" "b"
      (by decide) (by decide) (by decide)
    simpa using h

/-! ## Claim C9 -/

/-- C9: for every valid 3-segment plain path `C/I/F` (segments non-empty and
slash-free), parse yields `{collection := C, item := I, field := F,
section := ""}` and rendering the parsed reference reconstructs `C/I/F`
exactly. -/
theorem parsePath_three_roundtrip (C I F d : String)
    (hC : C ≠ "") (hI : I ≠ "") (hF : F ≠ "")
    (hCs : '/' ∉ C.data) (hIs : '/' ∉ I.data) (hFs : '/' ∉ F.data) :
    ParsePath (C ++ "/" ++ I ++ "/" ++ F) d = .ok ⟨C, I, "", F⟩ ∧
    ParsedPath.render ⟨C, I, "", F⟩ = C ++ "/" ++ I ++ "/" ++ F := by
  constructor
  · have hne : C ++ "/" ++ I ++ "/" ++ F ≠ "" := by
      intro h
      have := data_ne_nil hC
      have hd := congrArg String.data h
      simp [String.data_append] at hd
    rw [ParsePath, if_neg hne, goStartsWith_three_op_false C I F hC hI hCs hIs]
    simp only [Bool.false_eq_true, if_false,
      pathSegments_three C I F hC hI hF hCs hIs hFs]
  · have hparts : ParsedPath.parts ⟨C, I, "", F⟩ = [C, I, F] := by
      simp [ParsedPath.parts, hC, hI, hF]
    rw [ParsedPath.render, hparts]
    simp [goJoin, str_append_assoc]

/-- Witness for C9 at `"Private/API Keys/token"`. -/
theorem parsePath_three_roundtrip_witness :
    ParsePath "Private/API Keys/token" "" = .ok ⟨"Private", "API Keys", "", "token"⟩ ∧
    ParsedPath.render ⟨"Private", "API Keys", "", "token"⟩ = "Private/API Keys/token" := by
  have h := parsePath_three_roundtrip "Private" "API Keys" "token" ""
    (by decide) (by decide) (by decide) (by decide) (by decide) (by decide)
  simpa using h

/-! ## Error normalizer (`errors.go`) -/

/-- `ProviderName`. -/
def ProviderName : String := "onepassword"

/-- The cause wrapped by a `vault.VaultError`: the sentinel errors of the
`omnivault/vault` package, the ad-hoc ambiguous-path error, or the original
backend error text wrapped unchanged. -/
inductive VCause where
  | secretNotFound
  | accessDenied
  | ambiguousMatch
  | closedErr
  | wrapped (msg : String)
deriving DecidableEq, Repr

/-- `vault.VaultError` as constructed by `vault.NewVaultError`. -/
structure VaultError where
  op : String
  path : String
  provider : String
  cause : VCause
deriving DecidableEq, Repr

/-- `containsAny(s, substrs...)`: case-insensitive substring test. -/
def containsAny (s : String) (substrs : List String) : Bool :=
  substrs.any (fun sub => goContains (goToLower s) (goToLower sub))

/-- The not-found substring family of `mapError`. -/
def notFoundSubstrings : List String :=
  ["itemNotFound", "vaultNotFound", "fieldNotFound", "noMatchingSections",
   "item not found", "vault not found"]

/-- The access-denied substring family of `mapError`. -/
def accessDeniedSubstrings : List String :=
  ["unauthorized", "forbidden", "access denied", "AccessDenied",
   "invalid service account token", "authentication failed"]

/-- The ambiguous-match substring family of `mapError`. -/
def ambiguousSubstrings : List String :=
  ["tooManyVaults", "tooManyItems", "tooManyMatchingFields"]

/-- `mapError(operation, path, err)` for a non-nil error with text `e`. -/
def mapError (operation path : String) (e : String) : VaultError :=
  if containsAny e notFoundSubstrings then
    ⟨operation, path, ProviderName, .secretNotFound⟩
  else if containsAny e accessDeniedSubstrings then
    ⟨operation, path, ProviderName, .accessDenied⟩
  else if containsAny e ambiguousSubstrings then
    ⟨operation, path, ProviderName, .ambiguousMatch⟩
  else
    ⟨operation, path, ProviderName, .wrapped e⟩

/-- `isNotFoundError(err)` for a non-nil error with text `e`. -/
def isNotFoundError (e : String) : Bool :=
  containsAny (goToLower e)
    ["itemnotfound", "vaultnotfound", "fieldnotfound", "not found"]

/-! ## Claim C5 -/

/-- C5 counterexample: the raw error text `"field not found"` contains the
claimed substring `"field not found"`, yet `mapError` classifies it as
Unknown (wrapping the original text), not as NotFound — the code's
substring family uses the camel-case `"fieldNotFound"` (and
`"noMatchingSections"`), not the spaced spellings. -/
theorem mapError_spaced_fieldNotFound_counterexample :
    mapError "Get" "p" "field not found"
      = ⟨"Get", "p", ProviderName, .wrapped "field not found"⟩ ∧
    (mapError "Get" "p" "field not found").cause ≠ VCause.secretNotFound := by
  decide

/-- C5 (amended): an error whose text contains, case-insensitively, any of
`itemNotFound`, `vaultNotFound`, `fieldNotFound`, `noMatchingSections`,
`item not found`, `vault not found` is classified NotFound; an error
matching none of the three substring families is returned as Unknown
wrapping the original text unchanged. -/
theorem mapError_classification (op path e : String) :
    (containsAny e notFoundSubstrings = true →
      mapError op path e = ⟨op, path, ProviderName, .secretNotFound⟩) ∧
    (containsAny e notFoundSubstrings = false →
      containsAny e accessDeniedSubstrings = false →
      containsAny e ambiguousSubstrings = false →
      mapError op path e = ⟨op, path, ProviderName, .wrapped e⟩) := by
  constructor
  · intro h
    rw [mapError, if_pos h]
  · intro h1 h2 h3
    rw [mapError, if_neg (by simp [h1]), if_neg (by simp [h2]), if_neg (by simp [h3])]

/-- Witness for the amended C5 on a matching and a non-matching error. -/
theorem mapError_classification_witness :
    mapError "Get" "p" "rawErr: itemNotFound (xyz)"
      = ⟨"Get", "p", ProviderName, .secretNotFound⟩ ∧
    mapError "Get" "p" "boom" = ⟨"Get", "p", ProviderName, .wrapped "boom"⟩ :=
  ⟨(mapError_classification "Get" "p" "rawErr: itemNotFound (xyz)").1 (by decide),
   (mapError_classification "Get" "p" "boom").2 (by decide) (by decide) (by decide)⟩

/-! ## Data model: backend items and the generic secret record

`op.Item` / `op.ItemField` are the 1Password SDK types consumed by the
conversion layer; `vault.Secret` / `vault.Metadata` are the generic record
types of the `omnivault/vault` package.  Go maps are association lists with
in-place overwrite (`mapInsert`), iterated in insertion order. -/

/-- The 1Password field types the source distinguishes. -/
inductive FieldType where
  | text
  | concealed
  | url
  | phone
  | totp
deriving DecidableEq, Repr

/-- `op.ItemField`.  `otpCode` models `Details.OTP().Code` when non-nil. -/
structure OPField where
  id : String
  title : String
  value : String
  fieldType : FieldType
  otpCode : Option String
deriving DecidableEq, Repr

/-- `op.Item`. -/
structure OPItem where
  id : String
  vaultID : String
  title : String
  category : String
  version : Nat
  fields : List OPField
  tags : List String
deriving DecidableEq, Repr

/-- `vault.Metadata`.  `tags = none` models the nil map. -/
structure Metadata where
  provider : String
  path : String
  version : String
  tags : Option (List (String × String))
  extra : List (String × String)
deriving DecidableEq, Repr

/-- `vault.Secret`. -/
structure Secret where
  value : String
  fields : List (String × String)
  metadata : Metadata
deriving DecidableEq, Repr

/-- Go map assignment `m[k] = v`: overwrite in place, else append. -/
def mapInsert {α : Type} (k : String) (v : α) : List (String × α) → List (String × α)
  | [] => [(k, v)]
  | (k', v') :: t => if k' = k then (k, v) :: t else (k', v') :: mapInsert k v t

/-- Go map read `m[k]` (with ok flag). -/
def mapLookup {α : Type} : List (String × α) → String → Option α
  | [], _ => none
  | (k', v) :: t, k => if k' = k then some v else mapLookup t k

/-- `strings.SplitN(s, c, 2)`. -/
def splitN2 (s : String) (c : Char) : List String :=
  match splitChar c s.data with
  | [] => [s]
  | [x] => [String.mk x]
  | x :: rest => [String.mk x, String.mk (List.intercalate [c] rest)]

/-! ## Record conversion (`convert.go`) -/

/-- The effective display name of a field: `Title`, falling back to `ID`. -/
def fieldName (f : OPField) : String :=
  if f.title = "" then f.id else f.title

/-- The value contributed by a field: the live computed OTP code for a TOTP
field when available, else the stored value. -/
def fieldEffValue (f : OPField) : String :=
  if f.fieldType = .totp then
    match f.otpCode with
    | some code => code
    | none => f.value
  else f.value

/-- The mutable state of `itemToSecret`'s field loop. -/
structure ScanSt where
  fields : List (String × String)
  firstConcealedValue : String
  value : String
deriving DecidableEq, Repr

/-- One iteration of `itemToSecret`'s field loop. -/
def scanField (st : ScanSt) (f : OPField) : ScanSt :=
  let name := fieldName f
  let value := fieldEffValue f
  { fields := mapInsert name value st.fields
    firstConcealedValue :=
      if st.firstConcealedValue = "" ∧ f.fieldType = .concealed then value
      else st.firstConcealedValue
    value := if goToLower name = "password" then value else st.value }

/-- The tag map of `itemToSecret`: `"key:value"` splits, bare tags map to
`""`; a tag-less item keeps the nil map. -/
def tagsOfItem (tags : List String) : Option (List (String × String)) :=
  if tags = [] then none
  else
    some (tags.foldl (fun m tag =>
      match splitN2 tag ':' with
      | [k, v] => mapInsert k v m
      | _ => mapInsert tag "" m) [])

/-- The fallback scan of `itemToSecret`: first non-empty value in map
iteration order (insertion order in this model; the Go map order is
unspecified, a documented nondeterminism of the source). -/
def firstNonemptyVal : List (String × String) → String
  | [] => ""
  | (_, v) :: t => if v ≠ "" then v else firstNonemptyVal t

/-- `itemToSecret(item, path)`. -/
def itemToSecret (item : OPItem) (path : String) : Secret :=
  let st := item.fields.foldl scanField ⟨[], "", ""⟩
  let value1 :=
    if st.value = "" ∧ st.firstConcealedValue ≠ "" then st.firstConcealedValue
    else st.value
  let value2 :=
    if value1 = "" ∧ st.fields ≠ [] then firstNonemptyVal st.fields else value1
  { value := value2
    fields := st.fields
    metadata :=
      { provider := ProviderName
        path := path
        version := toString item.version
        tags := tagsOfItem item.tags
        extra := [("vaultId", item.vaultID), ("itemId", item.id),
                  ("category", item.category)] } }

/-- `inferFieldType(name, value)`. -/
def inferFieldType (name value : String) : FieldType :=
  let nameLower := goToLower name
  if goContains nameLower "password" || goContains nameLower "secret" ||
      goContains nameLower "token" || goContains nameLower "key" ||
      goContains nameLower "credential" then .concealed
  else if goContains nameLower "url" || goContains nameLower "website" ||
      goContains nameLower "endpoint" then .url
  else if goContains nameLower "phone" || goContains nameLower "mobile" ||
      goContains nameLower "tel" then .phone
  else if goStartsWith value "otpauth://" then .totp
  else .text

/-- `sanitizeID(name)`. -/
def sanitizeID (name : String) : String :=
  let id := (goToLower name).data.map (fun r => if r = ' ' ∨ r = '-' then '_' else r)
  let result := id.filter (fun r =>
    ('a' ≤ r ∧ r ≤ 'z') ∨ ('0' ≤ r ∧ r ≤ '9') ∨ r = '_')
  let sanitized := ((result.dropWhile (· = '_')).reverse.dropWhile (· = '_')).reverse
  if sanitized = [] then "field" else String.mk sanitized

/-- `secretToFields(secret, fieldName)`. -/
def secretToFields (secret : Secret) (fieldTarget : String) : List OPField :=
  if fieldTarget ≠ "" then
    [⟨sanitizeID fieldTarget, fieldTarget, secret.value, .concealed, none⟩]
  else
    let fields := secret.fields.map (fun nv =>
      (⟨sanitizeID nv.1, nv.1, nv.2, inferFieldType nv.1 nv.2, none⟩ : OPField))
    if fields = [] ∧ secret.value ≠ "" then
      [⟨"password", "password", secret.value, .concealed, none⟩]
    else fields

/-- `tagsToStrings(tags)` for a non-nil tag map. -/
def tagsToStrings (tags : List (String × String)) : List String :=
  tags.map (fun kv => if kv.2 ≠ "" then kv.1 ++ ":" ++ kv.2 else kv.1)

/-! ## Scan characterization for `itemToSecret` -/

/-- The `value` component of the field loop, in isolation. -/
def valueScan : List OPField → String → String
  | [], acc => acc
  | f :: t, acc =>
    valueScan t (if goToLower (fieldName f) = "password" then fieldEffValue f else acc)

/-- The `firstConcealedValue` component of the field loop, in isolation. -/
def concealedScan : List OPField → String → String
  | [], acc => acc
  | f :: t, acc =>
    concealedScan t
      (if acc = "" ∧ f.fieldType = .concealed then fieldEffValue f else acc)

/-- The `fields` map component of the field loop, in isolation. -/
def fieldsScan : List OPField → List (String × String) → List (String × String)
  | [], m => m
  | f :: t, m => fieldsScan t (mapInsert (fieldName f) (fieldEffValue f) m)

theorem foldl_scanField (fs : List OPField) (st : ScanSt) :
    fs.foldl scanField st =
      ⟨fieldsScan fs st.fields, concealedScan fs st.firstConcealedValue,
        valueScan fs st.value⟩ := by
  induction fs generalizing st with
  | nil => rfl
  | cons f t ih =>
    rw [List.foldl_cons, ih]
    rfl

theorem valueScan_no_pwd (fs : List OPField) (acc : String)
    (h : ∀ f ∈ fs, goToLower (fieldName f) ≠ "password") :
    valueScan fs acc = acc := by
  induction fs generalizing acc with
  | nil => rfl
  | cons g t ih =>
    rw [valueScan, if_neg (h g (List.mem_cons_self _ _))]
    exact ih acc (fun f hf => h f (List.mem_cons_of_mem _ hf))

theorem valueScan_unique_pwd (fs : List OPField) (acc : String) (f : OPField)
    (hf : f ∈ fs) (hpwd : goToLower (fieldName f) = "password")
    (hnodup : (fs.map (fun g => goToLower (fieldName g))).Nodup) :
    valueScan fs acc = fieldEffValue f := by
  induction fs generalizing acc with
  | nil => cases hf
  | cons g t ih =>
    obtain ⟨hg, ht⟩ := List.nodup_cons.mp hnodup
    rw [valueScan]
    rcases List.mem_cons.mp hf with rfl | hft
    · rw [if_pos hpwd]
      apply valueScan_no_pwd
      intro h hh heq
      exact hg (List.mem_map.mpr ⟨h, hh, heq.trans hpwd.symm⟩)
    · have hgne : goToLower (fieldName g) ≠ "password" := by
        intro heq
        exact hg (List.mem_map.mpr ⟨f, hft, hpwd.trans heq.symm⟩)
      rw [if_neg hgne]
      exact ih _ hft ht

theorem concealedScan_stable (fs : List OPField) (acc : String) (h : acc ≠ "") :
    concealedScan fs acc = acc := by
  induction fs with
  | nil => rfl
  | cons g t ih =>
    rw [concealedScan, if_neg (by simp [h])]
    exact ih

theorem concealedScan_find (fs : List OPField)
    (hval : ∀ f ∈ fs, fieldEffValue f ≠ "") :
    concealedScan fs "" =
      (match fs.find? (fun g => g.fieldType == FieldType.concealed) with
        | some f => fieldEffValue f
        | none => "") := by
  induction fs with
  | nil => rfl
  | cons g t ih =>
    by_cases hg : g.fieldType = FieldType.concealed
    · rw [concealedScan, if_pos ⟨rfl, hg⟩,
        concealedScan_stable t _ (hval g (List.mem_cons_self _ _))]
      simp [List.find?_cons, hg]
    · rw [concealedScan, if_neg (by simp [hg])]
      rw [ih (fun f hf => hval f (List.mem_cons_of_mem _ hf))]
      simp [List.find?_cons, hg]

theorem mapInsert_fresh {α : Type} (k : String) (v : α) (m : List (String × α))
    (h : k ∉ m.map Prod.fst) :
    mapInsert k v m = m ++ [(k, v)] := by
  induction m with
  | nil => rfl
  | cons kv t ih =>
    rw [mapInsert, if_neg (by rintro rfl; exact h (by simp))]
    rw [ih (fun hm => h (List.mem_cons_of_mem _ hm))]
    rfl

theorem fieldsScan_fresh (fs : List OPField) (m : List (String × String))
    (hnodup : (fs.map fieldName).Nodup)
    (hdisj : ∀ f ∈ fs, fieldName f ∉ m.map Prod.fst) :
    fieldsScan fs m = m ++ fs.map (fun f => (fieldName f, fieldEffValue f)) := by
  induction fs generalizing m with
  | nil => simp [fieldsScan]
  | cons g t ih =>
    obtain ⟨hg, ht⟩ := List.nodup_cons.mp hnodup
    rw [fieldsScan, mapInsert_fresh _ _ _ (hdisj g (List.mem_cons_self _ _))]
    rw [ih _ ht]
    · simp
    · intro f hf
      simp only [List.map_append, List.mem_append]
      rintro (hm | hm)
      · exact hdisj f (List.mem_cons_of_mem _ hf) hm
      · simp at hm
        exact hg (hm ▸ List.mem_map_of_mem _ hf)

theorem itemToSecret_value (item : OPItem) (path : String) :
    (itemToSecret item path).value =
      (if (if valueScan item.fields "" = "" ∧ concealedScan item.fields "" ≠ ""
            then concealedScan item.fields "" else valueScan item.fields "") = ""
          ∧ fieldsScan item.fields [] ≠ [] then
        firstNonemptyVal (fieldsScan item.fields [])
      else
        (if valueScan item.fields "" = "" ∧ concealedScan item.fields "" ≠ ""
          then concealedScan item.fields "" else valueScan item.fields "")) := by
  rw [itemToSecret, foldl_scanField]

/-! ## Claim C6 -/

/-- C6: the primary value of a converted item follows first-match-wins
precedence — the value of the (unique, by the name-distinctness hypothesis)
field named "password" case-insensitively; otherwise the first
concealed-type field; otherwise the first non-empty field value in
enumeration order.  Hypotheses: lowered effective field names are pairwise
distinct and every field contributes a non-empty value (the source's map
iteration order is determinized to insertion order in this model). -/
theorem itemToSecret_value_precedence (item : OPItem) (path : String)
    (hnodup : (item.fields.map (fun f => goToLower (fieldName f))).Nodup)
    (hval : ∀ f ∈ item.fields, fieldEffValue f ≠ "") :
    (∀ f ∈ item.fields, goToLower (fieldName f) = "password" →
        (itemToSecret item path).value = fieldEffValue f) ∧
    ((∀ f ∈ item.fields, goToLower (fieldName f) ≠ "password") →
      ∀ f, item.fields.find? (fun g => g.fieldType == FieldType.concealed) = some f →
        (itemToSecret item path).value = fieldEffValue f) ∧
    ((∀ f ∈ item.fields, goToLower (fieldName f) ≠ "password") →
      item.fields.find? (fun g => g.fieldType == FieldType.concealed) = none →
      ∀ f rest, item.fields = f :: rest →
        (itemToSecret item path).value = fieldEffValue f) := by
  refine ⟨?_, ?_, ?_⟩
  · intro f hf hpwd
    have hv : valueScan item.fields "" = fieldEffValue f :=
      valueScan_unique_pwd _ _ f hf hpwd hnodup
    have hne : fieldEffValue f ≠ "" := hval f hf
    have hc1 : ¬(fieldEffValue f = "" ∧ concealedScan item.fields "" ≠ "") :=
      fun hcc => hne hcc.1
    have hc2 : ¬(fieldEffValue f = "" ∧ fieldsScan item.fields [] ≠ []) :=
      fun hcc => hne hcc.1
    rw [itemToSecret_value, hv, if_neg hc1]
    exact if_neg hc2
  · intro hnp f hfind
    have hv : valueScan item.fields "" = "" := valueScan_no_pwd _ _ hnp
    have hc : concealedScan item.fields "" = fieldEffValue f := by
      rw [concealedScan_find _ hval, hfind]
    have hmem : f ∈ item.fields := List.mem_of_find?_eq_some hfind
    have hne : fieldEffValue f ≠ "" := hval f hmem
    have h1 : (if ("" : String) = "" ∧ fieldEffValue f ≠ ""
        then fieldEffValue f else "") = fieldEffValue f := if_pos ⟨rfl, hne⟩
    have hc2 : ¬(fieldEffValue f = "" ∧ fieldsScan item.fields [] ≠ []) :=
      fun hcc => hne hcc.1
    rw [itemToSecret_value, hv, hc, h1]
    exact if_neg hc2
  · intro hnp hfind f rest hfs
    have hv : valueScan item.fields "" = "" := valueScan_no_pwd _ _ hnp
    have hc : concealedScan item.fields "" = "" := by
      rw [concealedScan_find _ hval, hfind]
    have hnames : (item.fields.map fieldName).Nodup := by
      have hmm : ((item.fields.map fieldName).map goToLower).Nodup := by
        rw [List.map_map]
        exact hnodup
      exact hmm.of_map _
    have hscan : fieldsScan item.fields [] =
        item.fields.map (fun g => (fieldName g, fieldEffValue g)) := by
      rw [fieldsScan_fresh _ _ hnames (by simp)]
      rfl
    have hne : fieldEffValue f ≠ "" := hval f (hfs ▸ List.mem_cons_self _ _)
    have h1 : (if ("" : String) = "" ∧ ("" : String) ≠ ""
        then ("" : String) else "") = "" := if_neg (fun hcc => hcc.2 rfl)
    have hnefs : fieldsScan item.fields [] ≠ [] := by
      rw [hscan, hfs]
      simp
    rw [itemToSecret_value, hv, hc, h1, if_pos ⟨rfl, hnefs⟩, hscan, hfs,
      List.map_cons, firstNonemptyVal, if_pos hne]

/-- Witness for C6: the claim's two concrete examples — a username/password
item converts with primary value `"p"`, and a text-only notes item falls
back to `"n"`. -/
theorem itemToSecret_value_precedence_witness :
    (itemToSecret ⟨"item123", "vault456", "Test Item", "LOGIN", 5,
        [⟨"username", "username", "u", .text, none⟩,
         ⟨"password", "password", "p", .concealed, none⟩], []⟩ "V/I").value = "p" ∧
    (itemToSecret ⟨"item1", "vault1", "Note", "SECURE_NOTE", 1,
        [⟨"notes", "notes", "n", .text, none⟩], []⟩ "V/N").value = "n" := by
  constructor
  · exact (itemToSecret_value_precedence
      ⟨"item123", "vault456", "Test Item", "LOGIN", 5,
        [⟨"username", "username", "u", .text, none⟩,
         ⟨"password", "password", "p", .concealed, none⟩], []⟩ "V/I"
      (by decide) (by decide)).1
      ⟨"password", "password", "p", .concealed, none⟩ (by decide) (by decide)
  · exact (itemToSecret_value_precedence
      ⟨"item1", "vault1", "Note", "SECURE_NOTE", 1,
        [⟨"notes", "notes", "n", .text, none⟩], []⟩ "V/N"
      (by decide) (by decide)).2.2 (by decide) (by decide) _ _ rfl

/-! ## Configuration (`config.go`) -/

/-- `DefaultIntegrationName`. -/
def DefaultIntegrationName : String := "omnivault-onepassword"

/-- `DefaultIntegrationVersion`. -/
def DefaultIntegrationVersion : String := "0.1.0"

/-- `CategorySecureNote` (the SDK's secure-note category constant). -/
def CategorySecureNote : String := "SECURE_NOTE"

/-- `Config` (the logger field, pure glue, is omitted). -/
structure Config where
  serviceAccountToken : String
  integrationName : String
  integrationVersion : String
  defaultVaultID : String
  defaultVaultName : String
  defaultCategory : String
  cacheTTL : Nat
deriving DecidableEq, Repr

/-- `Config.withDefaults()`. -/
def Config.withDefaults (c : Config) : Config :=
  let c := if c.integrationName = "" then { c with integrationName := DefaultIntegrationName } else c
  let c := if c.integrationVersion = "" then { c with integrationVersion := DefaultIntegrationVersion } else c
  if c.defaultCategory = "" then { c with defaultCategory := CategorySecureNote } else c

/-- `Provider.getDefaultVault()`: ID takes precedence over name. -/
def getDefaultVault (c : Config) : String :=
  if c.defaultVaultID ≠ "" then c.defaultVaultID else c.defaultVaultName

/-! ## Backend capability interface (the 1Password SDK client)

A snapshot of the external backend: each query is a pure function of the
backend state `σ`, each mutation additionally returns the successor state.
Within one provider operation the source performs its mutating call last,
so a per-operation snapshot is a faithful model. -/

/-- `op.Vault`. -/
structure OPVault where
  id : String
  title : String
deriving DecidableEq, Repr

/-- `op.ItemCreateParams`. -/
structure ItemCreateParams where
  vaultID : String
  title : String
  category : String
  fields : List OPField
  tags : List String
deriving DecidableEq, Repr

/-- The SDK client surface consumed by the provider (`Secrets.Resolve`,
`Vaults.ListAll`, `Items.ListAll/Get/Create/Put/Delete`).  Iterators are
modelled as the full list an error-free iteration would produce, or the
error the iteration reports. -/
structure Backend (σ : Type) where
  resolveSecret : σ → String → Except String String
  listVaults : σ → Except String (List OPVault)
  listItems : σ → String → Except String (List OPItem)
  getItem : σ → String → String → Except String OPItem
  createItem : σ → ItemCreateParams → Except String OPItem × σ
  putItem : σ → OPItem → Except String OPItem × σ
  deleteItem : σ → String → String → Option String × σ

/-- The provider's vault name → ID cache (`Provider.vaultCache`). -/
abbrev Cache := List (String × String)

/-- `Provider.cacheVaultID(name, id)`: also self-maps the ID. -/
def cacheVaultID (cache : Cache) (name id : String) : Cache :=
  mapInsert id id (mapInsert name id cache)

/-! ## Identifier resolution (`Provider.resolveVaultID` / `resolveItemID`) -/

/-- The enumeration loop of `resolveVaultID`: caches every vault seen so
far and returns on the first match by ID or title. -/
def resolveVaultLoop (n : String) : List OPVault → Cache → Except String String × Cache
  | [], cache => (.error ("vault not found: " ++ n), cache)
  | v :: rest, cache =>
    let cache' := cacheVaultID cache v.title v.id
    if v.id = n ∨ v.title = n then (.ok v.id, cache')
    else resolveVaultLoop n rest cache'

/-- `Provider.resolveVaultID(nameOrID)`. -/
def resolveVaultID {σ : Type} (B : Backend σ) (s : σ) (cache : Cache)
    (nameOrID : String) : Except String String × Cache :=
  if nameOrID = "" then (.error "vault name or ID is required", cache)
  else
    match mapLookup cache nameOrID with
    | some id => (.ok id, cache)
    | none =>
      match B.listVaults s with
      | .error e => (.error e, cache)
      | .ok vs => resolveVaultLoop nameOrID vs cache

/-- `Provider.resolveItemID(vaultID, nameOrID)`: enumerates the vault's
items on every call (no cache). -/
def resolveItemID {σ : Type} (B : Backend σ) (s : σ) (vaultID nameOrID : String) :
    Except String String :=
  if nameOrID = "" then .error "item name or ID is required"
  else
    match B.listItems s vaultID with
    | .error e => .error e
    | .ok items =>
      match items.find? (fun it => it.id == nameOrID || it.title == nameOrID) with
      | some it => .ok it.id
      | none => .error ("item not found: " ++ nameOrID)

/-! ## Orchestrated operations

Each operation is embedded as a function of the closed flag, the vault
cache, the configured defaults and its arguments, returning its result and
the successor cache (and backend state for mutating operations);
`ProviderX` wrappers below package the provider state. -/

/-- `Provider.resolveField`: direct field resolution via the Secrets API. -/
def resolveField {σ : Type} (B : Backend σ) (s : σ) (parsed : ParsedPath) :
    Except VaultError Secret :=
  match B.resolveSecret s parsed.secretReference with
  | .error e => .error (mapError "Get" parsed.render e)
  | .ok value => .ok ⟨value, [], ⟨ProviderName, parsed.render, "", none, []⟩⟩

/-- `Provider.getItem`: full-item fetch with name resolution. -/
def getItemOp {σ : Type} (B : Backend σ) (s : σ) (cache : Cache) (parsed : ParsedPath) :
    Except VaultError Secret × Cache :=
  match resolveVaultID B s cache parsed.vault with
  | (.error e, cache') => (.error (mapError "Get" parsed.render e), cache')
  | (.ok vaultID, cache') =>
    match resolveItemID B s vaultID parsed.item with
    | .error e => (.error (mapError "Get" parsed.render e), cache')
    | .ok itemID =>
      match B.getItem s vaultID itemID with
      | .error e => (.error (mapError "Get" parsed.render e), cache')
      | .ok item => (.ok (itemToSecret item parsed.render), cache')

/-- `Provider.Get(path)`. -/
def GetOp {σ : Type} (B : Backend σ) (s : σ) (closed : Bool) (cache : Cache)
    (defVault path : String) : Except VaultError Secret × Cache :=
  if closed then (.error ⟨"Get", path, ProviderName, .closedErr⟩, cache)
  else
    match ParsePath path defVault with
    | .error e => (.error ⟨"Get", path, ProviderName, .wrapped e⟩, cache)
    | .ok parsed =>
      if parsed.field ≠ "" then (resolveField B s parsed, cache)
      else getItemOp B s cache parsed

/-- `Provider.createItem`. -/
def createItem {σ : Type} (B : Backend σ) (s : σ) (vaultID : String)
    (parsed : ParsedPath) (secret : Secret) (defCat : String) :
    Option VaultError × σ :=
  let params : ItemCreateParams :=
    { vaultID := vaultID
      title := parsed.item
      category := defCat
      fields := secretToFields secret parsed.field
      tags := match secret.metadata.tags with
        | some m => tagsToStrings m
        | none => [] }
  match B.createItem s params with
  | (.error e, s') => (some (mapError "Set" parsed.render e), s')
  | (.ok _, s') => (none, s')

/-- The field-scoped update loop of `Provider.updateItem`: set the value of
the first field matching the target by title or ID, reporting whether a
match was found. -/
def updateFieldLoop (target value : String) : List OPField → List OPField × Bool
  | [] => ([], false)
  | f :: t =>
    if f.title = target ∨ f.id = target then ({ f with value := value } :: t, true)
    else
      let r := updateFieldLoop target value t
      (f :: r.1, r.2)

/-- `Provider.updateItem`. -/
def updateItem {σ : Type} (B : Backend σ) (s : σ) (vaultID itemID : String)
    (parsed : ParsedPath) (secret : Secret) : Option VaultError × σ :=
  match B.getItem s vaultID itemID with
  | .error e => (some (mapError "Set" parsed.render e), s)
  | .ok item =>
    let item :=
      if parsed.field ≠ "" then
        let r := updateFieldLoop parsed.field secret.value item.fields
        if r.2 then { item with fields := r.1 }
        else
          { item with fields := item.fields ++
              [⟨sanitizeID parsed.field, parsed.field, secret.value, .concealed, none⟩] }
      else { item with fields := secretToFields secret "" }
    let item :=
      match secret.metadata.tags with
      | some m => { item with tags := tagsToStrings m }
      | none => item
    match B.putItem s item with
    | (.error e, s') => (some (mapError "Set" parsed.render e), s')
    | (.ok _, s') => (none, s')

/-- `Provider.Set(path, secret)`: update when item resolution succeeds,
create otherwise. -/
def SetOp {σ : Type} (B : Backend σ) (s : σ) (closed : Bool) (cache : Cache)
    (defVault defCat path : String) (secret : Secret) :
    Option VaultError × Cache × σ :=
  if closed then (some ⟨"Set", path, ProviderName, .closedErr⟩, cache, s)
  else
    match ParsePath path defVault with
    | .error e => (some ⟨"Set", path, ProviderName, .wrapped e⟩, cache, s)
    | .ok parsed =>
      match resolveVaultID B s cache parsed.vault with
      | (.error e, cache') => (some (mapError "Set" path e), cache', s)
      | (.ok vaultID, cache') =>
        match resolveItemID B s vaultID parsed.item with
        | .ok itemID =>
          let r := updateItem B s vaultID itemID parsed secret
          (r.1, cache', r.2)
        | .error _ =>
          let r := createItem B s vaultID parsed secret defCat
          (r.1, cache', r.2)

/-- `Provider.Delete(path)`: not-found at any stage is swallowed. -/
def DeleteOp {σ : Type} (B : Backend σ) (s : σ) (closed : Bool) (cache : Cache)
    (defVault path : String) : Option VaultError × Cache × σ :=
  if closed then (some ⟨"Delete", path, ProviderName, .closedErr⟩, cache, s)
  else
    match ParsePath path defVault with
    | .error e => (some ⟨"Delete", path, ProviderName, .wrapped e⟩, cache, s)
    | .ok parsed =>
      match resolveVaultID B s cache parsed.vault with
      | (.error e, cache') =>
        if isNotFoundError e then (none, cache', s)
        else (some (mapError "Delete" path e), cache', s)
      | (.ok vaultID, cache') =>
        match resolveItemID B s vaultID parsed.item with
        | .error e =>
          if isNotFoundError e then (none, cache', s)
          else (some (mapError "Delete" path e), cache', s)
        | .ok itemID =>
          match B.deleteItem s vaultID itemID with
          | (some e, s') =>
            if isNotFoundError e then (none, cache', s')
            else (some (mapError "Delete" path e), cache', s')
          | (none, s') => (none, cache', s')

/-- `Provider.Exists(path)`. -/
def ExistsOp {σ : Type} (B : Backend σ) (s : σ) (closed : Bool) (cache : Cache)
    (defVault path : String) : Except VaultError Bool × Cache :=
  if closed then (.error ⟨"Exists", path, ProviderName, .closedErr⟩, cache)
  else
    match ParsePath path defVault with
    | .error e => (.error ⟨"Exists", path, ProviderName, .wrapped e⟩, cache)
    | .ok parsed =>
      match resolveVaultID B s cache parsed.vault with
      | (.error e, cache') =>
        if isNotFoundError e then (.ok false, cache')
        else (.error (mapError "Exists" path e), cache')
      | (.ok vaultID, cache') =>
        match resolveItemID B s vaultID parsed.item with
        | .error e =>
          if isNotFoundError e then (.ok false, cache')
          else (.error (mapError "Exists" path e), cache')
        | .ok _ => (.ok true, cache')

/-- The vault loop of `Provider.List`: a vault failing the bidirectional
prefix test, or whose items cannot be listed, is skipped (and not cached);
otherwise its matching item paths are emitted and its ID cached. -/
def listVaultLoop {σ : Type} (B : Backend σ) (s : σ) (pre : String) :
    List OPVault → Cache → List String → List String × Cache
  | [], cache, results => (results, cache)
  | v :: rest, cache, results =>
    if pre ≠ "" ∧ ¬goStartsWith v.title pre = true ∧ ¬goStartsWith pre (v.title ++ "/") = true then
      listVaultLoop B s pre rest cache results
    else
      match B.listItems s v.id with
      | .error _ => listVaultLoop B s pre rest cache results
      | .ok items =>
        let results' := results ++
          ((items.map (fun it => v.title ++ "/" ++ it.title)).filter
            (fun p => pre = "" ∨ goStartsWith p pre = true))
        listVaultLoop B s pre rest (cacheVaultID cache v.title v.id) results'

/-- `Provider.List(prefix)`. -/
def ListOp {σ : Type} (B : Backend σ) (s : σ) (closed : Bool) (cache : Cache)
    (pre : String) : Except VaultError (List String) × Cache :=
  if closed then (.error ⟨"List", pre, ProviderName, .closedErr⟩, cache)
  else
    match B.listVaults s with
    | .error e => (.error (mapError "List" pre e), cache)
    | .ok vs =>
      let r := listVaultLoop B s pre vs cache []
      (.ok r.1, r.2)

/-- The per-path loop of `Provider.GetBatch`: each path is fetched with
`Get`; failures are skipped silently. -/
def getBatchLoop {σ : Type} (B : Backend σ) (s : σ) (closed : Bool) (defVault : String) :
    List String → Cache → List (String × Secret) → List (String × Secret) × Cache
  | [], cache, results => (results, cache)
  | path :: rest, cache, results =>
    match GetOp B s closed cache defVault path with
    | (.ok secret, cache') =>
      getBatchLoop B s closed defVault rest cache' (mapInsert path secret results)
    | (.error _, cache') => getBatchLoop B s closed defVault rest cache' results

/-- `Provider.GetBatch(paths)`. -/
def GetBatchOp {σ : Type} (B : Backend σ) (s : σ) (closed : Bool) (cache : Cache)
    (defVault : String) (paths : List String) :
    Except VaultError (List (String × Secret)) × Cache :=
  if closed then (.error ⟨"GetBatch", "", ProviderName, .closedErr⟩, cache)
  else
    let r := getBatchLoop B s closed defVault paths cache []
    (.ok r.1, r.2)

/-! ## Provider state wrappers -/

/-- The mutable provider state: its configuration, vault cache and closed
flag (`Provider.config`, `Provider.vaultCache`, `Provider.closed`). -/
structure PState where
  config : Config
  vaultCache : Cache
  closed : Bool
deriving DecidableEq, Repr

def ProviderGet {σ : Type} (B : Backend σ) (s : σ) (st : PState) (path : String) :
    Except VaultError Secret × PState :=
  let r := GetOp B s st.closed st.vaultCache (getDefaultVault st.config) path
  (r.1, { st with vaultCache := r.2 })

def ProviderSet {σ : Type} (B : Backend σ) (s : σ) (st : PState) (path : String)
    (secret : Secret) : Option VaultError × PState × σ :=
  let r := SetOp B s st.closed st.vaultCache (getDefaultVault st.config)
    st.config.defaultCategory path secret
  (r.1, { st with vaultCache := r.2.1 }, r.2.2)

def ProviderDelete {σ : Type} (B : Backend σ) (s : σ) (st : PState) (path : String) :
    Option VaultError × PState × σ :=
  let r := DeleteOp B s st.closed st.vaultCache (getDefaultVault st.config) path
  (r.1, { st with vaultCache := r.2.1 }, r.2.2)

def ProviderExists {σ : Type} (B : Backend σ) (s : σ) (st : PState) (path : String) :
    Except VaultError Bool × PState :=
  let r := ExistsOp B s st.closed st.vaultCache (getDefaultVault st.config) path
  (r.1, { st with vaultCache := r.2 })

def ProviderList {σ : Type} (B : Backend σ) (s : σ) (st : PState) (pre : String) :
    Except VaultError (List String) × PState :=
  let r := ListOp B s st.closed st.vaultCache pre
  (r.1, { st with vaultCache := r.2 })

def ProviderGetBatch {σ : Type} (B : Backend σ) (s : σ) (st : PState)
    (paths : List String) : Except VaultError (List (String × Secret)) × PState :=
  let r := GetBatchOp B s st.closed st.vaultCache (getDefaultVault st.config) paths
  (r.1, { st with vaultCache := r.2 })

/-- `Provider.Close()`: sets the closed flag and always succeeds. -/
def ProviderClose (st : PState) : Option VaultError × PState :=
  (none, { st with closed := true })

/-! ## A functional model of the external 1Password service

Used to instantiate the theorems: vault and item stores with the listing,
fetch, create, update and delete semantics the provider's contract (§6 of
the spec) requires of the backend. -/

/-- A snapshot of the backend's stores. -/
structure World where
  vaults : List OPVault
  items : List OPItem
deriving DecidableEq, Repr

/-- The backend instance over `World`. -/
def worldBackend : Backend World where
  resolveSecret := fun w ref =>
    match parseSecretReference ref with
    | .error e => .error e
    | .ok p =>
      match w.vaults.find? (fun v => v.id == p.vault || v.title == p.vault) with
      | none => .error ("vault not found: " ++ p.vault)
      | some v =>
        match (w.items.filter (fun it => it.vaultID == v.id)).find?
            (fun it => it.id == p.item || it.title == p.item) with
        | none => .error ("item not found: " ++ p.item)
        | some it =>
          match it.fields.find? (fun f => f.id == p.field || f.title == p.field) with
          | none => .error "fieldNotFound"
          | some f => .ok (fieldEffValue f)
  listVaults := fun w => .ok w.vaults
  listItems := fun w vid => .ok (w.items.filter (fun it => it.vaultID == vid))
  getItem := fun w vid iid =>
    match (w.items.filter (fun it => it.vaultID == vid)).find? (fun it => it.id == iid) with
    | some it => .ok it
    | none => .error "itemNotFound"
  createItem := fun w params =>
    let it : OPItem := ⟨"id-" ++ toString w.items.length, params.vaultID,
      params.title, params.category, 1, params.fields, params.tags⟩
    (.ok it, { w with items := w.items ++ [it] })
  putItem := fun w item =>
    let items' := w.items.map
      (fun it => if it.id = item.id ∧ it.vaultID = item.vaultID then item else it)
    (.ok item, { w with items := items' })
  deleteItem := fun w vid iid =>
    if (w.items.filter (fun it => it.vaultID == vid)).any (fun it => it.id == iid) then
      (none, { w with items := w.items.filter (fun it => !(it.vaultID == vid && it.id == iid)) })
    else (some "itemNotFound", w)

/-! ## Containment and not-found-text lemmas -/

theorem containsSub_nil (l : List Char) : containsSub l [] = true := by
  cases l <;> simp [containsSub, List.isPrefixOf]

theorem isPrefixOf_append_true (a b c : List Char) (h : a.isPrefixOf b = true) :
    a.isPrefixOf (b ++ c) = true := by
  induction a generalizing b with
  | nil => simp [List.isPrefixOf]
  | cons x t ih =>
    cases b with
    | nil => simp [List.isPrefixOf] at h
    | cons y u =>
      simp only [List.cons_append, List.isPrefixOf, Bool.and_eq_true] at h ⊢
      exact ⟨h.1, ih u h.2⟩

theorem containsSub_append_left (l l' sub : List Char)
    (h : containsSub l sub = true) : containsSub (l ++ l') sub = true := by
  induction l with
  | nil =>
    have hsub : sub = [] := by
      cases sub with
      | nil => rfl
      | cons a t => simp [containsSub, List.isEmpty] at h
    subst hsub
    exact containsSub_nil _
  | cons x t ih =>
    rw [containsSub] at h
    rw [List.cons_append, containsSub]
    cases hp : sub.isPrefixOf (x :: t) with
    | true =>
      have := isPrefixOf_append_true sub (x :: t) l' hp
      rw [List.cons_append] at this
      simp [this]
    | false =>
      rw [hp, Bool.false_or] at h
      simp [ih h]

/-- Any error of the form `pre ++ n` where the (doubly) lowered `pre`
contains `"not found"` is recognized by `isNotFoundError`. -/
theorem isNotFoundError_concat (pre n : String)
    (h : containsSub ((pre.data.map Char.toLower).map Char.toLower)
        (String.data "not found") = true) :
    isNotFoundError (pre ++ n) = true := by
  rw [isNotFoundError, containsAny]
  apply List.any_eq_true.mpr
  refine ⟨"not found", by simp, ?_⟩
  rw [goContains]
  have hd : (goToLower (goToLower (pre ++ n))).data
      = (pre.data.map Char.toLower).map Char.toLower
        ++ (n.data.map Char.toLower).map Char.toLower := by
    simp [goToLower, String.data_append]
  rw [hd]
  have hs : (goToLower "not found").data = String.data "not found" := rfl
  rw [hs]
  exact containsSub_append_left _ _ _ h

theorem isNotFoundError_vault_nf (n : String) :
    isNotFoundError ("vault not found: " ++ n) = true :=
  isNotFoundError_concat "vault not found: " n (by decide)

theorem isNotFoundError_item_nf (n : String) :
    isNotFoundError ("item not found: " ++ n) = true :=
  isNotFoundError_concat "item not found: " n (by decide)

/-! ## Well-formed parses have non-empty vault and item -/

theorem pathSegments_mem_ne {s x : String} (hx : x ∈ pathSegments s) : x ≠ "" := by
  rw [pathSegments] at hx
  simp only [List.mem_filter, decide_eq_true_eq] at hx
  exact hx.2

theorem pathSegments_list_ne {s : String} {l : List String}
    (hseg : pathSegments s = l) : ∀ x ∈ l, x ≠ "" :=
  fun _ hx => pathSegments_mem_ne (hseg ▸ hx)

theorem ParsePath_ok_nonempty {path defVault : String} {p : ParsedPath}
    (h : ParsePath path defVault = .ok p) : p.vault ≠ "" ∧ p.item ≠ "" := by
  rw [ParsePath] at h
  by_cases hp : path = ""
  · rw [if_pos hp] at h
    exact absurd h (by simp)
  rw [if_neg hp] at h
  by_cases hop : goStartsWith path "op://" = true
  · rw [if_pos hop] at h
    simp only [parseSecretReference] at h
    split at h <;> rename_i hseg
    · rw [← Except.ok.inj h]
      exact ⟨pathSegments_list_ne hseg _ (List.mem_cons_self _ _),
        pathSegments_list_ne hseg _ (List.mem_cons_of_mem _ (List.mem_cons_self _ _))⟩
    · rw [← Except.ok.inj h]
      exact ⟨pathSegments_list_ne hseg _ (List.mem_cons_self _ _),
        pathSegments_list_ne hseg _ (List.mem_cons_of_mem _ (List.mem_cons_self _ _))⟩
    · rw [← Except.ok.inj h]
      exact ⟨pathSegments_list_ne hseg _ (List.mem_cons_self _ _),
        pathSegments_list_ne hseg _ (List.mem_cons_of_mem _ (List.mem_cons_self _ _))⟩
    · exact absurd h (by simp)
  · rw [if_neg hop] at h
    split at h <;> rename_i hseg
    · exact absurd h (by simp)
    · by_cases hd : defVault = ""
      · rw [if_pos hd] at h
        exact absurd h (by simp)
      · rw [if_neg hd] at h
        rw [← Except.ok.inj h]
        exact ⟨hd, pathSegments_list_ne hseg _ (List.mem_cons_self _ _)⟩
    · by_cases hd : defVault ≠ ""
      · rw [if_pos hd] at h
        rw [← Except.ok.inj h]
        exact ⟨hd, pathSegments_list_ne hseg _ (List.mem_cons_self _ _)⟩
      · rw [if_neg hd] at h
        rw [← Except.ok.inj h]
        exact ⟨pathSegments_list_ne hseg _ (List.mem_cons_self _ _),
          pathSegments_list_ne hseg _ (List.mem_cons_of_mem _ (List.mem_cons_self _ _))⟩
    · rw [← Except.ok.inj h]
      exact ⟨pathSegments_list_ne hseg _ (List.mem_cons_self _ _),
        pathSegments_list_ne hseg _ (List.mem_cons_of_mem _ (List.mem_cons_self _ _))⟩
    · rw [← Except.ok.inj h]
      exact ⟨pathSegments_list_ne hseg _ (List.mem_cons_self _ _),
        pathSegments_list_ne hseg _ (List.mem_cons_of_mem _ (List.mem_cons_self _ _))⟩
    · exact absurd h (by simp)

/-! ## Resolution over the functional backend -/

theorem resolveVaultLoop_cases (n : String) (vs : List OPVault) (cache : Cache) :
    (∃ vid cache', resolveVaultLoop n vs cache = (.ok vid, cache')) ∨
    (∃ cache', resolveVaultLoop n vs cache = (.error ("vault not found: " ++ n), cache')) := by
  induction vs generalizing cache with
  | nil => exact .inr ⟨cache, rfl⟩
  | cons v rest ih =>
    by_cases hm : v.id = n ∨ v.title = n
    · exact .inl ⟨v.id, cacheVaultID cache v.title v.id, by simp [resolveVaultLoop, hm]⟩
    · have := ih (cacheVaultID cache v.title v.id)
      rcases this with ⟨vid, cache', hr⟩ | ⟨cache', hr⟩
      · exact .inl ⟨vid, cache', by simp [resolveVaultLoop, hm, hr]⟩
      · exact .inr ⟨cache', by simp [resolveVaultLoop, hm, hr]⟩

theorem resolveVaultID_world_cases (w : World) (c : Cache) (n : String) (hn : n ≠ "") :
    (∃ vid cache', resolveVaultID worldBackend w c n = (.ok vid, cache')) ∨
    (∃ cache', resolveVaultID worldBackend w c n = (.error ("vault not found: " ++ n), cache')) := by
  rw [resolveVaultID, if_neg hn]
  cases hml : mapLookup c n with
  | some id => exact .inl ⟨id, c, rfl⟩
  | none =>
    show _ ∨ _
    have hlv : worldBackend.listVaults w = .ok w.vaults := rfl
    rw [hlv]
    exact resolveVaultLoop_cases n w.vaults c

theorem resolveItemID_world_cases (w : World) (vid n : String) (hn : n ≠ "") :
    (∃ iid, resolveItemID worldBackend w vid n = .ok iid) ∨
    resolveItemID worldBackend w vid n = .error ("item not found: " ++ n) := by
  rw [resolveItemID, if_neg hn]
  have hli : worldBackend.listItems w vid
      = .ok (w.items.filter (fun it => it.vaultID == vid)) := rfl
  cases hf : (w.items.filter (fun it => it.vaultID == vid)).find?
      (fun it => it.id == n || it.title == n) with
  | some it => exact .inl ⟨it.id, by simp only [hli, hf]⟩
  | none => exact .inr (by simp only [hli, hf])

/-- On the functional backend, `Delete` of any well-formed path on an open
provider never reports an error, whatever the cache and store contents. -/
theorem deleteOp_world_none (w : World) (c : Cache) (defVault path : String)
    (parsed : ParsedPath) (hparse : ParsePath path defVault = .ok parsed) :
    (DeleteOp worldBackend w false c defVault path).1 = none := by
  obtain ⟨hv, hi⟩ := ParsePath_ok_nonempty hparse
  rw [DeleteOp, if_neg Bool.false_ne_true]
  simp only [hparse]
  rcases resolveVaultID_world_cases w c parsed.vault hv with ⟨vid, cache', hrv⟩ | ⟨cache', hrv⟩
  · simp only [hrv]
    rcases resolveItemID_world_cases w vid parsed.item hi with ⟨iid, hri⟩ | hri
    · simp only [hri]
      have hdu : worldBackend.deleteItem w vid iid
          = (if ((w.items.filter (fun it => it.vaultID == vid)).any
                (fun it => it.id == iid)) = true then
              (none, { w with items :=
                w.items.filter (fun it => !(it.vaultID == vid && it.id == iid)) })
            else (some "itemNotFound", w)) := rfl
      by_cases hex : ((w.items.filter (fun it => it.vaultID == vid)).any
          (fun it => it.id == iid)) = true
      · have hdel := hdu.trans (if_pos hex)
        simp [hdel]
      · have hdel := hdu.trans (if_neg hex)
        have hnf : isNotFoundError "itemNotFound" = true := by decide
        simp [hdel, hnf]
    · simp only [hri]
      simp [isNotFoundError_item_nf]
  · simp only [hrv]
    simp [isNotFoundError_vault_nf]

/-! ## Claim C2 -/

/-- C2: for every well-formed path on an open provider, `Delete` swallows a
not-found result from collection resolution, item resolution, or the
backend delete call itself, returning success; any non-not-found error
propagates as the normalized `mapError "Delete"`; and on the functional
backend two successive `Delete` calls never error on the second call. -/
theorem delete_notfound_swallowed_and_idempotent {σ : Type} (B : Backend σ) (s : σ)
    (cache : Cache) (defVault path : String) (parsed : ParsedPath)
    (hparse : ParsePath path defVault = .ok parsed) :
    (∀ e cache', resolveVaultID B s cache parsed.vault = (.error e, cache') →
      DeleteOp B s false cache defVault path =
        ((if isNotFoundError e then none else some (mapError "Delete" path e)),
          cache', s)) ∧
    (∀ vid cache' e, resolveVaultID B s cache parsed.vault = (.ok vid, cache') →
      resolveItemID B s vid parsed.item = .error e →
      DeleteOp B s false cache defVault path =
        ((if isNotFoundError e then none else some (mapError "Delete" path e)),
          cache', s)) ∧
    (∀ vid cache' iid e s', resolveVaultID B s cache parsed.vault = (.ok vid, cache') →
      resolveItemID B s vid parsed.item = .ok iid →
      B.deleteItem s vid iid = (some e, s') →
      DeleteOp B s false cache defVault path =
        ((if isNotFoundError e then none else some (mapError "Delete" path e)),
          cache', s')) ∧
    (∀ (w : World) (c : Cache),
      (DeleteOp worldBackend w false c defVault path).1 = none ∧
      (DeleteOp worldBackend ((DeleteOp worldBackend w false c defVault path).2.2) false
          ((DeleteOp worldBackend w false c defVault path).2.1) defVault path).1
        = none) := by
  refine ⟨?_, ?_, ?_, ?_⟩
  · intro e cache' hrv
    rw [DeleteOp, if_neg Bool.false_ne_true]
    simp only [hparse, hrv]
    cases hnf : isNotFoundError e <;> simp [hnf]
  · intro vid cache' e hrv hri
    rw [DeleteOp, if_neg Bool.false_ne_true]
    simp only [hparse, hrv, hri]
    cases hnf : isNotFoundError e <;> simp [hnf]
  · intro vid cache' iid e s' hrv hri hdel
    rw [DeleteOp, if_neg Bool.false_ne_true]
    simp only [hparse, hrv, hri, hdel]
    cases hnf : isNotFoundError e <;> simp [hnf]
  · intro w c
    exact ⟨deleteOp_world_none w c defVault path parsed hparse,
      deleteOp_world_none _ _ defVault path parsed hparse⟩

/-- Witness for C2: deleting `"V/I"` twice in a one-vault one-item world;
neither call errors. -/
theorem delete_notfound_swallowed_and_idempotent_witness :
    (DeleteOp worldBackend
        ⟨[⟨"v1", "V"⟩], [⟨"i1", "v1", "I", "LOGIN", 1, [], []⟩]⟩
        false [] "" "V/I").1 = none ∧
    (DeleteOp worldBackend
        (DeleteOp worldBackend
          ⟨[⟨"v1", "V"⟩], [⟨"i1", "v1", "I", "LOGIN", 1, [], []⟩]⟩
          false [] "" "V/I").2.2
        false
        (DeleteOp worldBackend
          ⟨[⟨"v1", "V"⟩], [⟨"i1", "v1", "I", "LOGIN", 1, [], []⟩]⟩
          false [] "" "V/I").2.1 "" "V/I").1 = none :=
  (delete_notfound_swallowed_and_idempotent worldBackend
      ⟨[⟨"v1", "V"⟩], [⟨"i1", "v1", "I", "LOGIN", 1, [], []⟩]⟩
      [] "" "V/I" ⟨"V", "I", "", ""⟩ (by decide)).2.2.2
    ⟨[⟨"v1", "V"⟩], [⟨"i1", "v1", "I", "LOGIN", 1, [], []⟩]⟩ []

/-! ## Cache lookup/insert lemmas -/

theorem mapLookup_insert {α : Type} (k : String) (v : α) (m : List (String × α))
    (n : String) :
    mapLookup (mapInsert k v m) n = if k = n then some v else mapLookup m n := by
  induction m with
  | nil => simp [mapInsert, mapLookup]
  | cons kv t ih =>
    obtain ⟨k', v'⟩ := kv
    rw [mapInsert]
    by_cases hk : k' = k
    · subst hk
      rw [if_pos rfl, mapLookup, mapLookup]
      split_ifs <;> rfl
    · rw [if_neg hk, mapLookup, mapLookup, ih]
      split_ifs with h1 h2 <;> simp_all

theorem cacheVaultID_lookup (cache : Cache) (title id n : String) :
    mapLookup (cacheVaultID cache title id) n =
      if id = n then some id
      else if title = n then some id
      else mapLookup cache n := by
  rw [cacheVaultID, mapLookup_insert, mapLookup_insert]

theorem resolveVaultLoop_no_match (n : String) : ∀ (vs : List OPVault) (cache : Cache),
    (∀ v ∈ vs, v.id ≠ n ∧ v.title ≠ n) →
    resolveVaultLoop n vs cache =
      (.error ("vault not found: " ++ n),
        vs.foldl (fun c v => cacheVaultID c v.title v.id) cache) := by
  intro vs
  induction vs with
  | nil => intro cache _; rfl
  | cons v rest ih =>
    intro cache hno
    rw [resolveVaultLoop,
      if_neg (by rcases hno v (List.mem_cons_self _ _) with ⟨h1, h2⟩; tauto),
      List.foldl_cons]
    exact ih _ (fun x hx => hno x (List.mem_cons_of_mem _ hx))

theorem resolveVaultLoop_ok_lookup (n : String) (vs : List OPVault)
    (cache cache' : Cache) (vid : String)
    (h : resolveVaultLoop n vs cache = (.ok vid, cache')) :
    mapLookup cache' n = some vid := by
  induction vs generalizing cache with
  | nil => simp [resolveVaultLoop] at h
  | cons v rest ih =>
    rw [resolveVaultLoop] at h
    by_cases hm : v.id = n ∨ v.title = n
    · rw [if_pos hm] at h
      obtain ⟨h1, h2⟩ := Prod.mk.injEq .. ▸ h
      injection h1 with h1
      subst h1
      subst h2
      rw [cacheVaultID_lookup]
      rcases hm with hm | hm <;> split_ifs <;> simp_all
    · rw [if_neg hm] at h
      exact ih _ h

/-! ## Claim C3 -/

/-- C3 counterexample: item-name resolution consults no cache — its result
depends on the backend listing on every call, so a repeated resolution of
the same item name does enumerate the backend again: against a backend
listing the item, `resolveItemID` answers `i1`; against a backend whose
listing fails, the same call fails, cache state notwithstanding (there is
no item cache in the provider state at all).  Also, vault enumeration
returns at the first match, so resolving vault `A` does not populate the
cache with the later vault `B`'s name→ID pair, contradicting "populating
the cache with every discovered name→ID pair ... then re-check". -/
theorem resolveItemID_no_cache_counterexample :
    resolveItemID
      (⟨fun _ _ => .error "", fun _ => .ok [], fun _ _ => .ok [⟨"i1", "v", "a", "LOGIN", 1, [], []⟩],
        fun _ _ _ => .error "", fun u _ => (.error "", u), fun u _ => (.error "", u),
        fun u _ _ => (none, u)⟩ : Backend Unit) () "v" "a" = .ok "i1" ∧
    resolveItemID
      (⟨fun _ _ => .error "", fun _ => .ok [], fun _ _ => .error "boom",
        fun _ _ _ => .error "", fun u _ => (.error "", u), fun u _ => (.error "", u),
        fun u _ _ => (none, u)⟩ : Backend Unit) () "v" "a" = .error "boom" ∧
    mapLookup
      (resolveVaultID
        (⟨fun _ _ => .error "", fun _ => .ok [⟨"v1", "A"⟩, ⟨"v2", "B"⟩],
          fun _ _ => .ok [], fun _ _ _ => .error "", fun u _ => (.error "", u),
          fun u _ => (.error "", u), fun u _ _ => (none, u)⟩ : Backend Unit)
        () [] "A").2 "B" = none := by
  refine ⟨rfl, rfl, rfl⟩

/-- C3 (amended): collection (vault) resolution checks the cache first and
on a hit returns the cached ID immediately, independently of the backend;
on a miss it enumerates vaults, caching each discovered title→ID and ID→ID
pair up to and including the match and returning the match at once, so the
requested name is cached after any successful resolution and a repeated
resolution of it contacts no backend; only a full matchless enumeration
fails with not-found, with every listed vault then cached.  Item resolution
has no cache: every call enumerates the collection's items via the
backend's listing. -/
theorem resolve_cache_semantics {σ σ' : Type} (B : Backend σ) (s : σ)
    (B' : Backend σ') (s' : σ') :
    (∀ cache n id, n ≠ "" → mapLookup cache n = some id →
      resolveVaultID B s cache n = (.ok id, cache)) ∧
    (∀ cache cache' n vid, resolveVaultID B s cache n = (.ok vid, cache') →
      mapLookup cache' n = some vid) ∧
    (∀ cache cache' n vid, n ≠ "" →
      resolveVaultID B s cache n = (.ok vid, cache') →
      resolveVaultID B' s' cache' n = (.ok vid, cache')) ∧
    (∀ cache n vs, n ≠ "" → mapLookup cache n = none → B.listVaults s = .ok vs →
      (∀ v ∈ vs, v.id ≠ n ∧ v.title ≠ n) →
      resolveVaultID B s cache n =
        (.error ("vault not found: " ++ n),
          vs.foldl (fun c v => cacheVaultID c v.title v.id) cache)) ∧
    (∀ vid n items, n ≠ "" → B.listItems s vid = .ok items →
      resolveItemID B s vid n =
        (match items.find? (fun it => it.id == n || it.title == n) with
          | some it => .ok it.id
          | none => .error ("item not found: " ++ n))) := by
  have hhit : ∀ (cache : Cache) (n id : String), n ≠ "" → mapLookup cache n = some id →
      resolveVaultID B s cache n = (.ok id, cache) := by
    intro cache n id hn hml
    rw [resolveVaultID, if_neg hn]
    simp only [hml]
  have hhit' : ∀ (cache : Cache) (n id : String), n ≠ "" → mapLookup cache n = some id →
      resolveVaultID B' s' cache n = (.ok id, cache) := by
    intro cache n id hn hml
    rw [resolveVaultID, if_neg hn]
    simp only [hml]
  have hlook : ∀ (cache cache' : Cache) (n vid : String),
      resolveVaultID B s cache n = (.ok vid, cache') →
      mapLookup cache' n = some vid := by
    intro cache cache' n vid h
    rw [resolveVaultID] at h
    split_ifs at h with hn
    · simp at h
    · cases hml : mapLookup cache n with
      | some id =>
        rw [hml] at h
        obtain ⟨h1, h2⟩ := Prod.mk.injEq .. ▸ h
        injection h1 with h1
        subst h1
        subst h2
        exact hml
      | none =>
        rw [hml] at h
        cases hlv : B.listVaults s with
        | error e =>
          rw [hlv] at h
          simp at h
        | ok vs =>
          rw [hlv] at h
          exact resolveVaultLoop_ok_lookup n vs cache cache' vid h
  refine ⟨hhit, hlook, ?_, ?_, ?_⟩
  · intro cache cache' n vid hn h
    exact hhit' cache' n vid hn (hlook cache cache' n vid h)
  · intro cache n vs hn hml hlv hno
    rw [resolveVaultID, if_neg hn]
    simp only [hml, hlv]
    exact resolveVaultLoop_no_match n vs cache hno
  · intro vid n items hn hli
    rw [resolveItemID, if_neg hn]
    simp only [hli]

/-- Witness for the amended C3: a cache hit resolves without the backend; a
miss enumerates, caches the match, and the repeat is backend-independent;
item resolution reflects the backend listing. -/
theorem resolve_cache_semantics_witness :
    resolveVaultID
      (⟨fun _ _ => .error "", fun _ => .ok [], fun _ _ => .ok [],
        fun _ _ _ => .error "", fun u _ => (.error "", u), fun u _ => (.error "", u),
        fun u _ _ => (none, u)⟩ : Backend Unit) () [("A", "v1")] "A"
      = (.ok "v1", [("A", "v1")]) ∧
    resolveItemID
      (⟨fun _ _ => .error "", fun _ => .ok [],
        fun _ _ => .ok [⟨"i1", "v", "a", "LOGIN", 1, [], []⟩],
        fun _ _ _ => .error "", fun u _ => (.error "", u), fun u _ => (.error "", u),
        fun u _ _ => (none, u)⟩ : Backend Unit) () "v" "a" = .ok "i1" := by
  constructor
  · exact (resolve_cache_semantics
      (⟨fun _ _ => .error "", fun _ => .ok [], fun _ _ => .ok [],
        fun _ _ _ => .error "", fun u _ => (.error "", u), fun u _ => (.error "", u),
        fun u _ _ => (none, u)⟩ : Backend Unit) ()
      (⟨fun _ _ => .error "", fun _ => .ok [], fun _ _ => .ok [],
        fun _ _ _ => .error "", fun u _ => (.error "", u), fun u _ => (.error "", u),
        fun u _ _ => (none, u)⟩ : Backend Unit) ()).1
      [("A", "v1")] "A" "v1" (by decide) (by decide)
  · exact (resolve_cache_semantics
      (⟨fun _ _ => .error "", fun _ => .ok [],
        fun _ _ => .ok [⟨"i1", "v", "a", "LOGIN", 1, [], []⟩],
        fun _ _ _ => .error "", fun u _ => (.error "", u), fun u _ => (.error "", u),
        fun u _ _ => (none, u)⟩ : Backend Unit) ()
      (⟨fun _ _ => .error "", fun _ => .ok [],
        fun _ _ => .ok [⟨"i1", "v", "a", "LOGIN", 1, [], []⟩],
        fun _ _ _ => .error "", fun u _ => (.error "", u), fun u _ => (.error "", u),
        fun u _ _ => (none, u)⟩ : Backend Unit) ()).2.2.2.2
      "v" "a" [⟨"i1", "v", "a", "LOGIN", 1, [], []⟩] (by decide) rfl

/-! ## Claim C4 -/

/-- C4 counterexample: item-ID resolution fails with `"forbidden"` (a
backend listing failure, not a not-found), yet `Set` proceeds to create a
new item and returns success — the backend state flips to `true` recording
that `createItem` was called, and no error propagates; the code never
distinguishes not-found from other resolution errors at this branch. -/
theorem set_creates_on_any_resolution_error_counterexample :
    isNotFoundError "forbidden" = false ∧
    SetOp
      (⟨fun _ _ => .error "", fun _ => .ok [⟨"v1", "V"⟩], fun _ _ => .error "forbidden",
        fun _ _ _ => .error "",
        fun _ p => (.ok ⟨"newid", p.vaultID, p.title, p.category, 1, p.fields, p.tags⟩, true),
        fun b i => (.ok i, b), fun b _ _ => (none, b)⟩ : Backend Bool)
      false false [] "" "SECURE_NOTE" "V/I"
      ⟨"val", [], ⟨"", "", "", none, []⟩⟩
      = (none, [("V", "v1"), ("v1", "v1")], true) := by
  exact ⟨rfl, rfl⟩

/-- C4 (amended): in `Set`, every item-ID resolution failure — not-found or
any other error, ambiguous listing failures included — causes creation of a
new item with fields built per the conversion rules and the configured
default category; no item-resolution error propagates from this step. -/
theorem setOp_creates_on_resolution_error {σ : Type} (B : Backend σ) (s : σ)
    (cache : Cache) (defVault defCat path : String) (secret : Secret)
    (parsed : ParsedPath) (hparse : ParsePath path defVault = .ok parsed)
    (vid : String) (cache' : Cache) (e : String)
    (hrv : resolveVaultID B s cache parsed.vault = (.ok vid, cache'))
    (hri : resolveItemID B s vid parsed.item = .error e) :
    SetOp B s false cache defVault defCat path secret =
      ((createItem B s vid parsed secret defCat).1, cache',
        (createItem B s vid parsed secret defCat).2) := by
  rw [SetOp, if_neg Bool.false_ne_true]
  simp only [hparse, hrv, hri]

/-- Witness for the amended C4 at a concrete erroring backend. -/
theorem setOp_creates_on_resolution_error_witness :
    SetOp
      (⟨fun _ _ => .error "", fun _ => .ok [⟨"v1", "V"⟩], fun _ _ => .error "boom",
        fun _ _ _ => .error "",
        fun _ p => (.ok ⟨"newid", p.vaultID, p.title, p.category, 1, p.fields, p.tags⟩, true),
        fun b i => (.ok i, b), fun b _ _ => (none, b)⟩ : Backend Bool)
      false false [] "" "SECURE_NOTE" "V/I"
      ⟨"val", [], ⟨"", "", "", none, []⟩⟩
      = ((createItem
            (⟨fun _ _ => .error "", fun _ => .ok [⟨"v1", "V"⟩], fun _ _ => .error "boom",
              fun _ _ _ => .error "",
              fun _ p => (.ok ⟨"newid", p.vaultID, p.title, p.category, 1, p.fields, p.tags⟩, true),
              fun b i => (.ok i, b), fun b _ _ => (none, b)⟩ : Backend Bool)
            false "v1" ⟨"V", "I", "", ""⟩
            ⟨"val", [], ⟨"", "", "", none, []⟩⟩ "SECURE_NOTE").1,
          [("V", "v1"), ("v1", "v1")],
          (createItem
            (⟨fun _ _ => .error "", fun _ => .ok [⟨"v1", "V"⟩], fun _ _ => .error "boom",
              fun _ _ _ => .error "",
              fun _ p => (.ok ⟨"newid", p.vaultID, p.title, p.category, 1, p.fields, p.tags⟩, true),
              fun b i => (.ok i, b), fun b _ _ => (none, b)⟩ : Backend Bool)
            false "v1" ⟨"V", "I", "", ""⟩
            ⟨"val", [], ⟨"", "", "", none, []⟩⟩ "SECURE_NOTE").2) :=
  setOp_creates_on_resolution_error _ false [] "" "SECURE_NOTE" "V/I"
    ⟨"val", [], ⟨"", "", "", none, []⟩⟩ ⟨"V", "I", "", ""⟩ (by decide)
    "v1" [("V", "v1"), ("v1", "v1")] "boom" rfl rfl

/-! ## Claim C7 -/

/-- C7: the provider is a two-state machine on the closed flag.  When
closed, every operation fails fast with a Closed-kind error and leaves the
state unchanged; `Close` always succeeds, sets the flag, and is idempotent;
no operation other than `Close` changes the flag, so the transition is
one-way and terminal. -/
theorem provider_state_machine {σ : Type} (B : Backend σ) (s : σ) (st : PState)
    (hclosed : st.closed = true) :
    (∀ path, ProviderGet B s st path
      = (.error ⟨"Get", path, ProviderName, .closedErr⟩, st)) ∧
    (∀ path secret, ProviderSet B s st path secret
      = (some ⟨"Set", path, ProviderName, .closedErr⟩, st, s)) ∧
    (∀ path, ProviderDelete B s st path
      = (some ⟨"Delete", path, ProviderName, .closedErr⟩, st, s)) ∧
    (∀ path, ProviderExists B s st path
      = (.error ⟨"Exists", path, ProviderName, .closedErr⟩, st)) ∧
    (∀ pre, ProviderList B s st pre
      = (.error ⟨"List", pre, ProviderName, .closedErr⟩, st)) ∧
    (∀ paths, ProviderGetBatch B s st paths
      = (.error ⟨"GetBatch", "", ProviderName, .closedErr⟩, st)) ∧
    (∀ st' : PState, ProviderClose st' = (none, { st' with closed := true }) ∧
      (ProviderClose st').2.closed = true ∧
      ProviderClose (ProviderClose st').2 = ProviderClose st') ∧
    (∀ (st' : PState) (path pre : String) (secret : Secret) (paths : List String),
      (ProviderGet B s st' path).2.closed = st'.closed ∧
      (ProviderSet B s st' path secret).2.1.closed = st'.closed ∧
      (ProviderDelete B s st' path).2.1.closed = st'.closed ∧
      (ProviderExists B s st' path).2.closed = st'.closed ∧
      (ProviderList B s st' pre).2.closed = st'.closed ∧
      (ProviderGetBatch B s st' paths).2.closed = st'.closed) := by
  refine ⟨?_, ?_, ?_, ?_, ?_, ?_, ?_, ?_⟩
  · intro path
    simp [ProviderGet, GetOp, hclosed]
    rw [← hclosed]
  · intro path secret
    simp [ProviderSet, SetOp, hclosed]
    rw [← hclosed]
  · intro path
    simp [ProviderDelete, DeleteOp, hclosed]
    rw [← hclosed]
  · intro path
    simp [ProviderExists, ExistsOp, hclosed]
    rw [← hclosed]
  · intro pre
    simp [ProviderList, ListOp, hclosed]
    rw [← hclosed]
  · intro paths
    simp [ProviderGetBatch, GetBatchOp, hclosed]
    rw [← hclosed]
  · intro st'
    exact ⟨rfl, rfl, rfl⟩
  · intro st' path pre secret paths
    exact ⟨rfl, rfl, rfl, rfl, rfl, rfl⟩

/-- Witness for C7 at a concrete closed provider state. -/
theorem provider_state_machine_witness :
    ProviderGet worldBackend ⟨[], []⟩
        ⟨⟨"tok", "n", "v", "", "", "SECURE_NOTE", 0⟩, [], true⟩ "V/I"
      = (.error ⟨"Get", "V/I", ProviderName, .closedErr⟩,
          ⟨⟨"tok", "n", "v", "", "", "SECURE_NOTE", 0⟩, [], true⟩) :=
  (provider_state_machine worldBackend ⟨[], []⟩
    ⟨⟨"tok", "n", "v", "", "", "SECURE_NOTE", 0⟩, [], true⟩ rfl).1 "V/I"

/-! ## Claim C8 -/

theorem getBatchLoop_lookup_none {σ : Type} (B : Backend σ) (s : σ) (closed : Bool)
    (defVault : String) (p : String)
    (hfail : ∀ c : Cache, ∃ e c', GetOp B s closed c defVault p = (.error e, c')) :
    ∀ (paths : List String) (cache : Cache) (acc : List (String × Secret)),
      mapLookup acc p = none →
      mapLookup (getBatchLoop B s closed defVault paths cache acc).1 p = none := by
  intro paths
  induction paths with
  | nil => intro cache acc hacc; exact hacc
  | cons q rest ih =>
    intro cache acc hacc
    rw [getBatchLoop]
    cases hq : GetOp B s closed cache defVault q with
    | mk res cache' =>
      cases res with
      | ok secret =>
        have hqp : q ≠ p := by
          rintro rfl
          obtain ⟨e, c', he⟩ := hfail cache
          rw [hq] at he
          simp at he
        exact ih cache' _ (by rw [mapLookup_insert, if_neg hqp]; exact hacc)
      | error e => exact ih cache' acc hacc

theorem getBatchLoop_lookup_some {σ : Type} (B : Backend σ) (s : σ) (closed : Bool)
    (defVault : String) (p : String) (secret : Secret) :
    ∀ (paths : List String) (cache : Cache) (acc : List (String × Secret)),
      mapLookup (getBatchLoop B s closed defVault paths cache acc).1 p = some secret →
      (∃ c c', GetOp B s closed c defVault p = (.ok secret, c')) ∨
        mapLookup acc p = some secret := by
  intro paths
  induction paths with
  | nil => intro cache acc h; exact .inr h
  | cons q rest ih =>
    intro cache acc h
    rw [getBatchLoop] at h
    cases hq : GetOp B s closed cache defVault q with
    | mk res cache' =>
      cases res with
      | ok sec =>
        rw [hq] at h
        rcases ih cache' _ h with hh | hh
        · exact .inl hh
        · rw [mapLookup_insert] at hh
          by_cases hqp : q = p
          · rw [if_pos hqp] at hh
            injection hh with hh
            subst hh
            exact .inl ⟨cache, cache', hqp ▸ hq⟩
          · rw [if_neg hqp] at hh
            exact .inr hh
      | error e =>
        rw [hq] at h
        exact ih cache' acc h

/-- C8: `GetBatch` on an open provider never fails as a whole; a path whose
`Get` fails (from every cache state) is omitted from the result map, and
every mapped path carries a value some `Get` call produced. -/
theorem getBatch_partial_success {σ : Type} (B : Backend σ) (s : σ) (st : PState)
    (hopen : st.closed = false) (paths : List String) :
    ∃ m st', ProviderGetBatch B s st paths = (.ok m, st') ∧
      (∀ p, (∀ c : Cache, ∃ e c',
          GetOp B s false c (getDefaultVault st.config) p = (.error e, c')) →
        mapLookup m p = none) ∧
      (∀ p secret, mapLookup m p = some secret →
        ∃ c c', GetOp B s false c (getDefaultVault st.config) p = (.ok secret, c')) := by
  refine ⟨(getBatchLoop B s false (getDefaultVault st.config) paths st.vaultCache []).1,
    { st with vaultCache :=
        (getBatchLoop B s false (getDefaultVault st.config) paths st.vaultCache []).2 },
    ?_, ?_, ?_⟩
  · rw [ProviderGetBatch, GetBatchOp, hopen]
    simp
  · intro p hfail
    exact getBatchLoop_lookup_none B s false (getDefaultVault st.config) p hfail
      paths st.vaultCache [] rfl
  · intro p secret hm
    rcases getBatchLoop_lookup_some B s false (getDefaultVault st.config) p secret
        paths st.vaultCache [] hm with hh | hh
    · exact hh
    · simp [mapLookup] at hh

/-- Witness for C8: in a world with item `I` in vault `V`, the batch
`["V/I", "V/nope"]` yields a map containing only `"V/I"` and no overall
error. -/
theorem getBatch_partial_success_witness :
    (∃ m st', ProviderGetBatch worldBackend
        ⟨[⟨"v1", "V"⟩], [⟨"i1", "v1", "I", "LOGIN", 1, [], []⟩]⟩
        ⟨⟨"tok", "n", "v", "", "", "SECURE_NOTE", 0⟩, [], false⟩
        ["V/I", "V/nope"] = (.ok m, st') ∧
      (∀ p, (∀ c : Cache, ∃ e c',
          GetOp worldBackend ⟨[⟨"v1", "V"⟩], [⟨"i1", "v1", "I", "LOGIN", 1, [], []⟩]⟩
            false c (getDefaultVault ⟨"tok", "n", "v", "", "", "SECURE_NOTE", 0⟩) p
            = (.error e, c')) →
        mapLookup m p = none) ∧
      (∀ p secret, mapLookup m p = some secret →
        ∃ c c', GetOp worldBackend ⟨[⟨"v1", "V"⟩], [⟨"i1", "v1", "I", "LOGIN", 1, [], []⟩]⟩
          false c (getDefaultVault ⟨"tok", "n", "v", "", "", "SECURE_NOTE", 0⟩) p
          = (.ok secret, c'))) ∧
    (ProviderGetBatch worldBackend
        ⟨[⟨"v1", "V"⟩], [⟨"i1", "v1", "I", "LOGIN", 1, [], []⟩]⟩
        ⟨⟨"tok", "n", "v", "", "", "SECURE_NOTE", 0⟩, [], false⟩
        ["V/I", "V/nope"]).1
      = .ok [("V/I", itemToSecret ⟨"i1", "v1", "I", "LOGIN", 1, [], []⟩ "V/I")] := by
  constructor
  · exact getBatch_partial_success worldBackend
      ⟨[⟨"v1", "V"⟩], [⟨"i1", "v1", "I", "LOGIN", 1, [], []⟩]⟩
      ⟨⟨"tok", "n", "v", "", "", "SECURE_NOTE", 0⟩, [], false⟩ rfl ["V/I", "V/nope"]
  · rfl

/-! ## Cache monotonicity: no operation removes cache entries -/

theorem cacheVaultID_mono (cache : Cache) (title id k : String)
    (h : (mapLookup cache k).isSome = true) :
    (mapLookup (cacheVaultID cache title id) k).isSome = true := by
  rw [cacheVaultID_lookup]
  split_ifs <;> simp_all

theorem resolveVaultLoop_mono (n : String) (vs : List OPVault) :
    ∀ (cache : Cache) (k : String), (mapLookup cache k).isSome = true →
      (mapLookup (resolveVaultLoop n vs cache).2 k).isSome = true := by
  induction vs with
  | nil => intro cache k h; exact h
  | cons v rest ih =>
    intro cache k h
    simp only [resolveVaultLoop]
    split_ifs with hm
    · exact cacheVaultID_mono _ _ _ _ h
    · exact ih _ k (cacheVaultID_mono _ _ _ _ h)

theorem resolveVaultID_mono {σ : Type} (B : Backend σ) (s : σ) (cache : Cache)
    (n k : String) (h : (mapLookup cache k).isSome = true) :
    (mapLookup (resolveVaultID B s cache n).2 k).isSome = true := by
  rw [resolveVaultID]
  split_ifs with hn
  · exact h
  · cases hml : mapLookup cache n with
    | some id => simp only [hml]; exact h
    | none =>
      cases hlv : B.listVaults s with
      | error e => simp only [hml, hlv]; exact h
      | ok vs => simp only [hml, hlv]; exact resolveVaultLoop_mono n vs cache k h

theorem getItemOp_mono {σ : Type} (B : Backend σ) (s : σ) (cache : Cache)
    (parsed : ParsedPath) (k : String) (h : (mapLookup cache k).isSome = true) :
    (mapLookup (getItemOp B s cache parsed).2 k).isSome = true := by
  rw [getItemOp]
  rcases hrv : resolveVaultID B s cache parsed.vault with ⟨res, cache'⟩
  have hc' : (mapLookup cache' k).isSome = true := by
    have hm := resolveVaultID_mono B s cache parsed.vault k h
    rw [hrv] at hm
    exact hm
  cases res with
  | error e => simp only [hrv]; exact hc'
  | ok vid =>
    simp only [hrv]
    cases hri : resolveItemID B s vid parsed.item with
    | error e => simp only [hri]; exact hc'
    | ok iid =>
      simp only [hri]
      cases hgi : B.getItem s vid iid with
      | error e => simp only [hgi]; exact hc'
      | ok item => simp only [hgi]; exact hc'

theorem GetOp_mono {σ : Type} (B : Backend σ) (s : σ) (closed : Bool) (cache : Cache)
    (defVault path k : String) (h : (mapLookup cache k).isSome = true) :
    (mapLookup (GetOp B s closed cache defVault path).2 k).isSome = true := by
  rw [GetOp]
  split_ifs with hc
  · exact h
  · cases hP : ParsePath path defVault with
    | error e => simp only [hP]; exact h
    | ok parsed =>
      simp only [hP]
      split_ifs with hf
      · exact h
      · exact getItemOp_mono B s cache parsed k h

theorem SetOp_mono {σ : Type} (B : Backend σ) (s : σ) (closed : Bool) (cache : Cache)
    (defVault defCat path k : String) (secret : Secret)
    (h : (mapLookup cache k).isSome = true) :
    (mapLookup (SetOp B s closed cache defVault defCat path secret).2.1 k).isSome = true := by
  rw [SetOp]
  split_ifs with hc
  · exact h
  · cases hP : ParsePath path defVault with
    | error e => simp only [hP]; exact h
    | ok parsed =>
      simp only [hP]
      rcases hrv : resolveVaultID B s cache parsed.vault with ⟨res, cache'⟩
      have hc' : (mapLookup cache' k).isSome = true := by
        have hm := resolveVaultID_mono B s cache parsed.vault k h
        rw [hrv] at hm
        exact hm
      cases res with
      | error e => simp only [hrv]; exact hc'
      | ok vid =>
        simp only [hrv]
        cases hri : resolveItemID B s vid parsed.item with
        | error e => simp only [hri]; exact hc'
        | ok iid => simp only [hri]; exact hc'

theorem DeleteOp_mono {σ : Type} (B : Backend σ) (s : σ) (closed : Bool) (cache : Cache)
    (defVault path k : String) (h : (mapLookup cache k).isSome = true) :
    (mapLookup (DeleteOp B s closed cache defVault path).2.1 k).isSome = true := by
  rw [DeleteOp]
  split_ifs with hc
  · exact h
  · cases hP : ParsePath path defVault with
    | error e => simp only [hP]; exact h
    | ok parsed =>
      simp only [hP]
      rcases hrv : resolveVaultID B s cache parsed.vault with ⟨res, cache'⟩
      have hc' : (mapLookup cache' k).isSome = true := by
        have hm := resolveVaultID_mono B s cache parsed.vault k h
        rw [hrv] at hm
        exact hm
      cases res with
      | error e =>
        simp only [hrv]
        split_ifs <;> exact hc'
      | ok vid =>
        simp only [hrv]
        cases hri : resolveItemID B s vid parsed.item with
        | error e =>
          simp only [hri]
          split_ifs <;> exact hc'
        | ok iid =>
          simp only [hri]
          rcases hdel : B.deleteItem s vid iid with ⟨oe, s'⟩
          cases oe with
          | none => simp only [hdel]; exact hc'
          | some e =>
            simp only [hdel]
            split_ifs <;> exact hc'

theorem ExistsOp_mono {σ : Type} (B : Backend σ) (s : σ) (closed : Bool) (cache : Cache)
    (defVault path k : String) (h : (mapLookup cache k).isSome = true) :
    (mapLookup (ExistsOp B s closed cache defVault path).2 k).isSome = true := by
  rw [ExistsOp]
  split_ifs with hc
  · exact h
  · cases hP : ParsePath path defVault with
    | error e => simp only [hP]; exact h
    | ok parsed =>
      simp only [hP]
      rcases hrv : resolveVaultID B s cache parsed.vault with ⟨res, cache'⟩
      have hc' : (mapLookup cache' k).isSome = true := by
        have hm := resolveVaultID_mono B s cache parsed.vault k h
        rw [hrv] at hm
        exact hm
      cases res with
      | error e =>
        simp only [hrv]
        split_ifs <;> exact hc'
      | ok vid =>
        simp only [hrv]
        cases hri : resolveItemID B s vid parsed.item with
        | error e =>
          simp only [hri]
          split_ifs <;> exact hc'
        | ok iid => simp only [hri]; exact hc'

theorem listVaultLoop_mono {σ : Type} (B : Backend σ) (s : σ) (pre : String)
    (vs : List OPVault) :
    ∀ (cache : Cache) (results : List String) (k : String),
      (mapLookup cache k).isSome = true →
      (mapLookup (listVaultLoop B s pre vs cache results).2 k).isSome = true := by
  induction vs with
  | nil => intro cache results k h; exact h
  | cons v rest ih =>
    intro cache results k h
    simp only [listVaultLoop]
    split_ifs with hskip
    · exact ih cache results k h
    · cases hli : B.listItems s v.id with
      | error e => simp only [hli]; exact ih cache results k h
      | ok items =>
        simp only [hli]
        exact ih _ _ k (cacheVaultID_mono _ _ _ _ h)

theorem ListOp_mono {σ : Type} (B : Backend σ) (s : σ) (closed : Bool) (cache : Cache)
    (pre k : String) (h : (mapLookup cache k).isSome = true) :
    (mapLookup (ListOp B s closed cache pre).2 k).isSome = true := by
  rw [ListOp]
  split_ifs with hc
  · exact h
  · cases hlv : B.listVaults s with
    | error e => simp only [hlv]; exact h
    | ok vs => simp only [hlv]; exact listVaultLoop_mono B s pre vs cache [] k h

theorem getBatchLoop_mono {σ : Type} (B : Backend σ) (s : σ) (closed : Bool)
    (defVault : String) (paths : List String) :
    ∀ (cache : Cache) (acc : List (String × Secret)) (k : String),
      (mapLookup cache k).isSome = true →
      (mapLookup (getBatchLoop B s closed defVault paths cache acc).2 k).isSome = true := by
  induction paths with
  | nil => intro cache acc k h; exact h
  | cons q rest ih =>
    intro cache acc k h
    rw [getBatchLoop]
    rcases hq : GetOp B s closed cache defVault q with ⟨res, cache'⟩
    have hc' : (mapLookup cache' k).isSome = true := by
      have hm := GetOp_mono B s closed cache defVault q k h
      rw [hq] at hm
      exact hm
    cases res with
    | ok secret => exact ih cache' _ k hc'
    | error e => exact ih cache' acc k hc'

theorem GetBatchOp_mono {σ : Type} (B : Backend σ) (s : σ) (closed : Bool)
    (cache : Cache) (defVault : String) (paths : List String) (k : String)
    (h : (mapLookup cache k).isSome = true) :
    (mapLookup (GetBatchOp B s closed cache defVault paths).2 k).isSome = true := by
  rw [GetBatchOp]
  split_ifs with hc
  · exact h
  · exact getBatchLoop_mono B s closed defVault paths cache [] k h

/-! ## Claim C10 -/

/-- A provider state with only the configured `CacheTTL` replaced. -/
def setTTL (st : PState) (t : Nat) : PState :=
  { st with config := { st.config with cacheTTL := t } }

/-- C10: provider behavior is completely independent of `Config.CacheTTL` —
every operation on a state differing only in the TTL returns the same
result and the same cache (the TTL is never read); and the collection-ID
cache is only ever added to or overwritten: no operation (Delete included)
removes an entry. -/
theorem cacheTTL_independent_and_cache_monotone {σ : Type} (B : Backend σ) (s : σ)
    (st : PState) (t : Nat) :
    (∀ path, ProviderGet B s (setTTL st t) path
      = ((ProviderGet B s st path).1, setTTL (ProviderGet B s st path).2 t)) ∧
    (∀ path secret, ProviderSet B s (setTTL st t) path secret
      = ((ProviderSet B s st path secret).1,
          setTTL (ProviderSet B s st path secret).2.1 t,
          (ProviderSet B s st path secret).2.2)) ∧
    (∀ path, ProviderDelete B s (setTTL st t) path
      = ((ProviderDelete B s st path).1,
          setTTL (ProviderDelete B s st path).2.1 t,
          (ProviderDelete B s st path).2.2)) ∧
    (∀ path, ProviderExists B s (setTTL st t) path
      = ((ProviderExists B s st path).1, setTTL (ProviderExists B s st path).2 t)) ∧
    (∀ pre, ProviderList B s (setTTL st t) pre
      = ((ProviderList B s st pre).1, setTTL (ProviderList B s st pre).2 t)) ∧
    (∀ paths, ProviderGetBatch B s (setTTL st t) paths
      = ((ProviderGetBatch B s st paths).1, setTTL (ProviderGetBatch B s st paths).2 t)) ∧
    (ProviderClose (setTTL st t) = ((ProviderClose st).1, setTTL (ProviderClose st).2 t)) ∧
    (∀ k, (mapLookup st.vaultCache k).isSome = true →
      ∀ (path pre : String) (secret : Secret) (paths : List String),
        (mapLookup (ProviderGet B s st path).2.vaultCache k).isSome = true ∧
        (mapLookup (ProviderSet B s st path secret).2.1.vaultCache k).isSome = true ∧
        (mapLookup (ProviderDelete B s st path).2.1.vaultCache k).isSome = true ∧
        (mapLookup (ProviderExists B s st path).2.vaultCache k).isSome = true ∧
        (mapLookup (ProviderList B s st pre).2.vaultCache k).isSome = true ∧
        (mapLookup (ProviderGetBatch B s st paths).2.vaultCache k).isSome = true) := by
  refine ⟨fun path => rfl, fun path secret => rfl, fun path => rfl, fun path => rfl,
    fun pre => rfl, fun paths => rfl, rfl, ?_⟩
  intro k h path pre secret paths
  exact ⟨GetOp_mono B s st.closed st.vaultCache _ path k h,
    SetOp_mono B s st.closed st.vaultCache _ _ path k secret h,
    DeleteOp_mono B s st.closed st.vaultCache _ path k h,
    ExistsOp_mono B s st.closed st.vaultCache _ path k h,
    ListOp_mono B s st.closed st.vaultCache pre k h,
    GetBatchOp_mono B s st.closed st.vaultCache _ paths k h⟩

/-- Witness for C10: concrete TTL change (0 vs 3600) does not affect a
`Delete`, and the `Delete` keeps the pre-existing cache entry. -/
theorem cacheTTL_independent_and_cache_monotone_witness :
    (ProviderDelete worldBackend ⟨[⟨"v1", "V"⟩], []⟩
        (setTTL ⟨⟨"tok", "n", "v", "", "", "SECURE_NOTE", 0⟩, [("A", "v9")], false⟩ 3600)
        "V/I"
      = ((ProviderDelete worldBackend ⟨[⟨"v1", "V"⟩], []⟩
            ⟨⟨"tok", "n", "v", "", "", "SECURE_NOTE", 0⟩, [("A", "v9")], false⟩ "V/I").1,
          setTTL (ProviderDelete worldBackend ⟨[⟨"v1", "V"⟩], []⟩
            ⟨⟨"tok", "n", "v", "", "", "SECURE_NOTE", 0⟩, [("A", "v9")], false⟩ "V/I").2.1 3600,
          (ProviderDelete worldBackend ⟨[⟨"v1", "V"⟩], []⟩
            ⟨⟨"tok", "n", "v", "", "", "SECURE_NOTE", 0⟩, [("A", "v9")], false⟩ "V/I").2.2)) ∧
    (mapLookup (ProviderDelete worldBackend ⟨[⟨"v1", "V"⟩], []⟩
        ⟨⟨"tok", "n", "v", "", "", "SECURE_NOTE", 0⟩, [("A", "v9")], false⟩
        "V/I").2.1.vaultCache "A").isSome = true := by
  constructor
  · exact (cacheTTL_independent_and_cache_monotone worldBackend ⟨[⟨"v1", "V"⟩], []⟩
      ⟨⟨"tok", "n", "v", "", "", "SECURE_NOTE", 0⟩, [("A", "v9")], false⟩ 3600).2.2.1 "V/I"
  · exact ((cacheTTL_independent_and_cache_monotone worldBackend ⟨[⟨"v1", "V"⟩], []⟩
      ⟨⟨"tok", "n", "v", "", "", "SECURE_NOTE", 0⟩, [("A", "v9")], false⟩ 3600).2.2.2.2.2.2.2
      "A" (by decide) "V/I" "" ⟨"", [], ⟨"", "", "", none, []⟩⟩ []).2.2.1

end OnePassword
